import Mathlib

/-!
Verification development for the terraformer provider bridge.

This file shallowly embeds the schema type engine
(`stoleninternal/configschema`: `ImpliedType`, `CoerceValue`, `EmptyValue`),
the provider wrapper (`providerwrapper/provider.go`: `GetReadOnlyAttributes`,
`readObjBlocks`, `Refresh`, `NewDynamicValue`, `UnmarshallDynamicValue`) and
the bounded work pool (`terraformutils/utils.go`: `DoWorkPooled`), and proves
or refutes the specification claims about them.

The first part models the `cty` value and type vocabulary that the engine is
written against.  `cty` is an external library; the parts modelled here
(types, values, the `HasDynamicTypes` predicate, the value constructors
`ListVal`/`SetVal`/`MapVal`/`ObjectVal` and type conformance testing) follow
its documented behaviour: constructors of homogeneous collections fail
("panic") on heterogeneous elements, and conformance lets the
`DynamicPseudoType` marker in the target accept anything.
-/

namespace Terraformer

/-- Structural types of the `cty` vocabulary: primitives, collections,
object/tuple composites, and the fully-dynamic marker `DynamicPseudoType`. -/
inductive Ty where
  | str : Ty
  | num : Ty
  | bool : Ty
  | dynamic : Ty
  | list (elem : Ty) : Ty
  | set (elem : Ty) : Ty
  | map (elem : Ty) : Ty
  | object (fields : List (String × Ty)) : Ty
  | tuple (elems : List Ty) : Ty
deriving Repr

mutual

/-- Boolean equality on types (models `cty.Type.Equals`). -/
def Ty.beq : Ty → Ty → Bool
  | .str, .str => true
  | .num, .num => true
  | .bool, .bool => true
  | .dynamic, .dynamic => true
  | .list a, .list b => Ty.beq a b
  | .set a, .set b => Ty.beq a b
  | .map a, .map b => Ty.beq a b
  | .object fs, .object gs => Ty.beqFields fs gs
  | .tuple ts, .tuple us => Ty.beqList ts us
  | _, _ => false

def Ty.beqFields : List (String × Ty) → List (String × Ty) → Bool
  | [], [] => true
  | (k, t) :: rest, (k', t') :: rest' =>
      k = k' && Ty.beq t t' && Ty.beqFields rest rest'
  | _, _ => false

def Ty.beqList : List Ty → List Ty → Bool
  | [], [] => true
  | t :: rest, t' :: rest' => Ty.beq t t' && Ty.beqList rest rest'
  | _, _ => false

end

mutual

theorem Ty.beq_iff : ∀ a b : Ty, Ty.beq a b = true ↔ a = b
  | .str, b => by cases b <;> simp [Ty.beq]
  | .num, b => by cases b <;> simp [Ty.beq]
  | .bool, b => by cases b <;> simp [Ty.beq]
  | .dynamic, b => by cases b <;> simp [Ty.beq]
  | .list a, b => by
      cases b
      case list b => simp only [Ty.beq, Ty.list.injEq]; exact Ty.beq_iff a b
      all_goals simp [Ty.beq]
  | .set a, b => by
      cases b
      case set b => simp only [Ty.beq, Ty.set.injEq]; exact Ty.beq_iff a b
      all_goals simp [Ty.beq]
  | .map a, b => by
      cases b
      case map b => simp only [Ty.beq, Ty.map.injEq]; exact Ty.beq_iff a b
      all_goals simp [Ty.beq]
  | .object fs, b => by
      cases b
      case object gs => simp only [Ty.beq, Ty.object.injEq]; exact Ty.beqFields_iff fs gs
      all_goals simp [Ty.beq]
  | .tuple ts, b => by
      cases b
      case tuple us => simp only [Ty.beq, Ty.tuple.injEq]; exact Ty.beqList_iff ts us
      all_goals simp [Ty.beq]

theorem Ty.beqFields_iff : ∀ fs gs : List (String × Ty), Ty.beqFields fs gs = true ↔ fs = gs
  | [], gs => by cases gs <;> simp [Ty.beqFields]
  | (k, t) :: rest, gs => by
      cases gs with
      | nil => simp [Ty.beqFields]
      | cons hd tl =>
          obtain ⟨k', t'⟩ := hd
          simp only [Ty.beqFields, Bool.and_eq_true, decide_eq_true_eq, List.cons.injEq,
            Prod.mk.injEq]
          rw [Ty.beq_iff t t', Ty.beqFields_iff rest tl]

theorem Ty.beqList_iff : ∀ ts us : List Ty, Ty.beqList ts us = true ↔ ts = us
  | [], us => by cases us <;> simp [Ty.beqList]
  | t :: rest, us => by
      cases us with
      | nil => simp [Ty.beqList]
      | cons hd tl =>
          simp only [Ty.beqList, Bool.and_eq_true, List.cons.injEq]
          rw [Ty.beq_iff t hd, Ty.beqList_iff rest tl]

end

instance : DecidableEq Ty := fun a b =>
  decidable_of_iff (Ty.beq a b = true) (Ty.beq_iff a b)

mutual

/-- Models `cty.Type.HasDynamicTypes`: true if the type is, or contains
anywhere inside it, the fully-dynamic marker. -/
def Ty.hasDynamic : Ty → Bool
  | .dynamic => true
  | .str | .num | .bool => false
  | .list t => t.hasDynamic
  | .set t => t.hasDynamic
  | .map t => t.hasDynamic
  | .object fs => Ty.hasDynamicFields fs
  | .tuple ts => Ty.hasDynamicList ts

/-- `hasDynamic` over the fields of an object type. -/
def Ty.hasDynamicFields : List (String × Ty) → Bool
  | [] => false
  | (_, t) :: rest => t.hasDynamic || Ty.hasDynamicFields rest

/-- `hasDynamic` over the element types of a tuple type. -/
def Ty.hasDynamicList : List Ty → Bool
  | [] => false
  | t :: rest => t.hasDynamic || Ty.hasDynamicList rest

end

/-! ### Association-list helpers

Go builds attribute collections in `map[string]cty.Value` /
`map[string]cty.Type` values and then canonicalizes them through
`cty.ObjectVal` / `cty.Object`.  We model the Go map as an association list
with insert-replace semantics and canonicalize by sorting on keys. -/

/-- Insert-or-replace into an association list (models writing to a Go map:
a later write for the same key replaces the earlier one). -/
def insertAssoc {α : Type} : List (String × α) → String → α → List (String × α)
  | [], k, v => [(k, v)]
  | (k', v') :: rest, k, v =>
      if k' = k then (k, v) :: rest else (k', v') :: insertAssoc rest k v

/-- Lookup in an association list (models reading a Go map). -/
def lookupAssoc {α : Type} : List (String × α) → String → Option α
  | [], _ => none
  | (k', v') :: rest, k => if k' = k then some v' else lookupAssoc rest k

/-- Character comparison by code point. -/
def charLt (c d : Char) : Bool := c.toNat < d.toNat

/-- Lexicographic comparison of character lists. -/
def charListLt : List Char → List Char → Bool
  | [], [] => false
  | [], _ :: _ => true
  | _ :: _, [] => false
  | c :: cs, d :: ds =>
      if charLt c d then true else if charLt d c then false else charListLt cs ds

/-- Lexicographic string order used for the canonical attribute order
(byte order for the ASCII names that occur in schemas, as in Go's
`sort.Strings`). -/
def keyLt (a b : String) : Bool := charListLt a.data b.data

/-- Insert a pair into a key-sorted association list. -/
def insertSorted {α : Type} (p : String × α) : List (String × α) → List (String × α)
  | [] => [p]
  | q :: rest => if keyLt p.1 q.1 then p :: q :: rest else q :: insertSorted p rest

/-- Sort an association list by key (models the canonical, key-ordered
attribute order that `cty` gives to object types and values built from Go
maps). -/
def sortKeys {α : Type} : List (String × α) → List (String × α)
  | [] => []
  | p :: rest => insertSorted p (sortKeys rest)

/-! ### Values -/

/-- `cty` values.  `nullV t` and `unknown t` carry the type the null/unknown
value is typed at; collections carry their element type (so that empty
collections are still typed, as in `cty.ListValEmpty`). -/
inductive Val where
  | nullV (t : Ty) : Val
  | unknown (t : Ty) : Val
  | str (s : String) : Val
  | num (n : Int) : Val
  | bool (b : Bool) : Val
  | list (elem : Ty) (es : List Val) : Val
  | set (elem : Ty) (es : List Val) : Val
  | map (elem : Ty) (es : List (String × Val)) : Val
  | object (fs : List (String × Val)) : Val
  | tuple (es : List Val) : Val
deriving Repr

mutual

/-- The structural type of a value (models `cty.Value.Type`). -/
def Val.ty : Val → Ty
  | .nullV t => t
  | .unknown t => t
  | .str _ => .str
  | .num _ => .num
  | .bool _ => .bool
  | .list elem _ => .list elem
  | .set elem _ => .set elem
  | .map elem _ => .map elem
  | .object fs => .object (Val.tyFields fs)
  | .tuple es => .tuple (Val.tyList es)

def Val.tyFields : List (String × Val) → List (String × Ty)
  | [] => []
  | (k, v) :: rest => (k, v.ty) :: Val.tyFields rest

def Val.tyList : List Val → List Ty
  | [] => []
  | v :: rest => v.ty :: Val.tyList rest

end

/-- Is this value the null value? (models `cty.Value.IsNull`). -/
def Val.isNull : Val → Bool
  | .nullV _ => true
  | _ => false

/-- Is this value known? (models `cty.Value.IsKnown`; only the top level is
consulted, as in the coercion code). -/
def Val.isKnown : Val → Bool
  | .unknown _ => false
  | _ => true

/-- `cty.NullVal`. -/
def NullVal (t : Ty) : Val := .nullV t

/-- `cty.UnknownVal`. -/
def UnknownVal (t : Ty) : Val := .unknown t

/-- `cty.ObjectVal`: builds an object value from a Go map of attribute
values; attribute order is canonicalized (key-sorted). -/
def ObjectVal (fs : List (String × Val)) : Val := .object (sortKeys fs)

/-- `cty.EmptyObjectVal`. -/
def EmptyObjectVal : Val := .object []

/-- `cty.EmptyTupleVal`. -/
def EmptyTupleVal : Val := .tuple []

/-- `cty.ListValEmpty`. -/
def ListValEmpty (t : Ty) : Val := .list t []

/-- `cty.SetValEmpty`. -/
def SetValEmpty (t : Ty) : Val := .set t []

/-- `cty.MapValEmpty`. -/
def MapValEmpty (t : Ty) : Val := .map t []

/-- `cty.ListVal`: requires a non-empty, type-homogeneous element list and
panics otherwise; the panic is modelled as `Except.error`. -/
def ListVal : List Val → Except String Val
  | [] => .error "must not call ListVal with empty list"
  | v :: vs =>
      if vs.all (fun w => w.ty = v.ty) then .ok (.list v.ty (v :: vs))
      else .error "inconsistent list element types"

/-- `cty.SetVal`: like `ListVal` but for sets. -/
def SetVal : List Val → Except String Val
  | [] => .error "must not call SetVal with empty list"
  | v :: vs =>
      if vs.all (fun w => w.ty = v.ty) then .ok (.set v.ty (v :: vs))
      else .error "inconsistent set element types"

/-- `cty.MapVal`: requires a non-empty Go map of type-homogeneous values;
the element order is canonicalized (key-sorted). -/
def MapVal : List (String × Val) → Except String Val
  | [] => .error "must not call MapVal with empty map"
  | (k, v) :: rest =>
      if rest.all (fun p => p.2.ty = v.ty) then
        .ok (.map v.ty (sortKeys ((k, v) :: rest)))
      else .error "inconsistent map element types"

/-! ### Type conformance

Models `cty.Type.TestConformance` (as a Bool: `true` iff the conformance
check reports no errors): a `DynamicPseudoType` in the wanted type accepts
anything; objects must have exactly the same attribute names with
conformant attribute types; tuples must have the same length with
conformant element types; collections of the same kind recurse into the
element type; anything else must be exactly equal. -/

mutual

def Ty.conformsTo : Ty → Ty → Bool
  | _, .dynamic => true
  | .object fs, .object gs => Ty.conformsFields fs gs
  | .tuple ts, .tuple us => Ty.conformsList ts us
  | .list a, .list b => Ty.conformsTo a b
  | .set a, .set b => Ty.conformsTo a b
  | .map a, .map b => Ty.conformsTo a b
  | a, b => a = b

def Ty.conformsFields : List (String × Ty) → List (String × Ty) → Bool
  | [], [] => true
  | (k, t) :: rest, (k', t') :: rest' =>
      k = k' && Ty.conformsTo t t' && Ty.conformsFields rest rest'
  | _, _ => false

def Ty.conformsList : List Ty → List Ty → Bool
  | [], [] => true
  | t :: rest, t' :: rest' => Ty.conformsTo t t' && Ty.conformsList rest rest'
  | _, _ => false

end

/-! ### Schema model

`tfprotov5.SchemaBlock` / `SchemaAttribute` / `SchemaNestedBlock`, wrapped by
the `configschema` package (schemawrapper.go).  A nil child block pointer is
represented by an empty block (for `ImpliedType` this is exactly what the Go
nil-receiver check produces). -/

/-- Block nesting modes (`tfprotov5.SchemaNestedBlockNestingMode…`); `invalid`
stands for any value outside the five legal modes. -/
inductive NestingMode where
  | single
  | group
  | list
  | set
  | map
  | invalid
deriving Repr, DecidableEq

/-- `tfprotov5.SchemaAttribute` (the fields the engine consults). -/
structure SchemaAttribute where
  name : String
  type : Ty
  required : Bool
  optional : Bool
  computed : Bool
deriving Repr

mutual

inductive Block where
  | mk (attributes : List SchemaAttribute) (blockTypes : List NestedBlock) : Block

inductive NestedBlock where
  | mk (typeName : String) (nesting : NestingMode) (block : Block) : NestedBlock

end

/-- The attribute list of a block. -/
def Block.attributes : Block → List SchemaAttribute
  | .mk attrs _ => attrs

/-- The nested-block list of a block. -/
def Block.blockTypes : Block → List NestedBlock
  | .mk _ bts => bts

/-- The type name of a nested block. -/
def NestedBlock.typeName : NestedBlock → String
  | .mk n _ _ => n

/-- The nesting mode of a nested block. -/
def NestedBlock.nesting : NestedBlock → NestingMode
  | .mk _ m _ => m

/-- The child block of a nested block. -/
def NestedBlock.block : NestedBlock → Block
  | .mk _ _ b => b

/-! ### `Block.ImpliedType` (src/unnamed/part_003)

The Go function panics on an attribute/block name collision, on the
fully-dynamic marker under set nesting, and on an out-of-range nesting mode;
panics are modelled as `Except.error`. -/

/-- The attribute half of `ImpliedType`: `atys[name] = WrapType(attrS.Type)`
for each declared attribute, in declaration order. -/
def attrsTypes : List SchemaAttribute → List (String × Ty) → List (String × Ty)
  | [], atys => atys
  | a :: rest, atys => attrsTypes rest (insertAssoc atys a.name a.type)

/-- The nesting-mode switch of `ImpliedType` (part_003 lines 33-67): the
attribute type a nested block contributes, or the panic it raises. -/
def nestedBlockAttrTy (nesting : NestingMode) (childType : Ty) : Except String Ty :=
  match nesting with
  | .single | .group => .ok childType
  | .list => .ok (if childType.hasDynamic then Ty.dynamic else .list childType)
  | .set =>
      if childType.hasDynamic then
        .error "cannot use the dynamic pseudo-type inside a set-nested block type"
      else .ok (.set childType)
  | .map => .ok (if childType.hasDynamic then Ty.dynamic else .map childType)
  | .invalid => .error "invalid nesting type"


mutual

/-- `Block.ImpliedType` (part_003 lines 13-71).  The final `cty.Object(atys)`
canonicalizes the accumulated Go map, modelled by `sortKeys`. -/
def Block.impliedType : Block → Except String Ty
  | .mk attrs bts =>
      match blockTypesImplied bts (attrsTypes attrs []) with
      | .error e => .error e
      | .ok atys => .ok (.object (sortKeys atys))

/-- The nested-block half of `ImpliedType`: one entry per nested block,
mapped through its nesting mode (part_003 lines 25-68). -/
def blockTypesImplied : List NestedBlock → List (String × Ty) → Except String (List (String × Ty))
  | [], atys => .ok atys
  | .mk name nesting block :: rest, atys =>
      if (lookupAssoc atys name).isSome then
        .error "invalid schema, blocks and attributes cannot have the same name"
      else
        match Block.impliedType block with
        | .error e => .error e
        | .ok childType =>
            match nestedBlockAttrTy nesting childType with
            | .error e => .error e
            | .ok aty => blockTypesImplied rest (insertAssoc atys name aty)

end

/-! ### `EmptyValue` (src/unnamed/part_002)

`Block.EmptyValue` fills one entry per attribute and per nested block.  For a
nested block the Go source calls `WrapNestedBlock(blockS).EmptyValue()`;
`WrapNestedBlock` (schemawrapper.go line 59) returns the CHILD `*Block`, so
this resolves to the child block's `Block.EmptyValue` — not to the mode-aware
`NestedBlock.EmptyValue` further down in the same file, which no reachable
code calls.  Both are embedded below. -/

/-- `Attribute.EmptyValue` (part_002 lines 31-33). -/
def SchemaAttribute.emptyValue (a : SchemaAttribute) : Val := NullVal a.type

/-- The attribute entries of `Block.EmptyValue`, in declaration order. -/
def attrsEmpty : List SchemaAttribute → List (String × Val) → List (String × Val)
  | [], vals => vals
  | a :: rest, vals => attrsEmpty rest (insertAssoc vals a.name a.emptyValue)

mutual

/-- `Block.EmptyValue` (part_002 lines 15-26), faithful to the
`WrapNestedBlock` resolution described above: every nested block contributes
the CHILD block's empty value, whatever its nesting mode. -/
def Block.emptyValue : Block → Val
  | .mk attrs bts => ObjectVal (blocksEmpty bts (attrsEmpty attrs []))

def blocksEmpty : List NestedBlock → List (String × Val) → List (String × Val)
  | [], vals => vals
  | .mk name _ block :: rest, vals =>
      blocksEmpty rest (insertAssoc vals name (Block.emptyValue block))

end

/-- `NestedBlock.EmptyValue` (part_002 lines 37-63): the mode-aware empty
value.  In the Go source this method exists but is never invoked, because
`WrapNestedBlock` returns a `*Block`; it is embedded here to compare against
the specified behaviour.  The `ImpliedType` call can panic (modelled as
`.error`). -/
def NestedBlock.emptyValue : NestedBlock → Except String Val
  | .mk _ nesting block =>
      match Block.impliedType block with
      | .error e => .error e
      | .ok impliedType =>
          match nesting with
          | .single => .ok (NullVal impliedType)
          | .group => .ok (Block.emptyValue block)
          | .list => .ok (if impliedType.hasDynamic then EmptyTupleVal else ListValEmpty impliedType)
          | .map => .ok (if impliedType.hasDynamic then EmptyObjectVal else MapValEmpty impliedType)
          | .set => .ok (SetValEmpty impliedType)
          | .invalid => .ok (NullVal .dynamic)

/-! ### Attribute value conversion -/

mutual

/-- Modelled from the spec: the `convert.Convert` call in
`Attribute.coerceValue` (coerce_value.go line 261) comes from the external
cty convert library, which is not under `src/`.  Following the spec's
description of attribute coercion — "apply a type conversion (e.g.,
boolean→string \"true\"/\"false\" is a defined legal conversion) and fail with
TypeMismatchError ... on incompatible shapes" — this model returns the value
unchanged when its type already equals the target or the target is the
fully-dynamic marker, converts nulls and unknowns to the target type,
supports the primitive conversions (bool→string, number→string,
string→number, string→bool), and converts collections pointwise when the
results stay homogeneous; everything else is an incompatible shape. -/
def convert : Val → Ty → Except String Val
  | v, t => if v.ty = t then .ok v else convertSlow v t
termination_by v _ => (sizeOf v, 3)

/-- The non-identity cases of `convert`. -/
def convertSlow : Val → Ty → Except String Val
  | v, t =>
      match v, t with
      | v, .dynamic => .ok v
      | .nullV _, t => .ok (NullVal t)
      | .unknown _, t => .ok (UnknownVal t)
      | .bool b, .str => .ok (.str (cond b "true" "false"))
      | .num n, .str => .ok (.str (toString n))
      | .str s, .num =>
          match s.toInt? with
          | some n => .ok (.num n)
          | none => .error "a number is required"
      | .str s, .bool =>
          if s = "true" then .ok (.bool true)
          else if s = "false" then .ok (.bool false)
          else .error "a bool is required"
      | .bool _, .bool => .error "unreachable"
      | .list _ es, .list t' => convertElems es t' >>= fun ws =>
          match ws with
          | [] => .ok (ListValEmpty t')
          | w :: rest =>
              if rest.all (fun x => x.ty = w.ty) then .ok (.list w.ty (w :: rest))
              else .error "inconsistent element types"
      | .set _ es, .set t' => convertElems es t' >>= fun ws =>
          match ws with
          | [] => .ok (SetValEmpty t')
          | w :: rest =>
              if rest.all (fun x => x.ty = w.ty) then .ok (.set w.ty (w :: rest))
              else .error "inconsistent element types"
      | .map _ es, .map t' => convertPairs es t' >>= fun ws =>
          match ws with
          | [] => .ok (MapValEmpty t')
          | (k, w) :: rest =>
              if rest.all (fun x => x.2.ty = w.ty) then .ok (.map w.ty ((k, w) :: rest))
              else .error "inconsistent element types"
      | .object fs, .object fts => convertFields fs fts >>= fun ws => .ok (.object ws)
      | _, _ => .error "incompatible type"
termination_by v _ => (sizeOf v, 2)

/-- Pointwise element conversion for `convert` on lists and sets. -/
def convertElems : List Val → Ty → Except String (List Val)
  | [], _ => .ok []
  | v :: rest, t => convert v t >>= fun w => convertElems rest t >>= fun ws => .ok (w :: ws)
termination_by l _ => (sizeOf l, 1)

/-- Pointwise element conversion for `convert` on maps. -/
def convertPairs : List (String × Val) → Ty → Except String (List (String × Val))
  | [], _ => .ok []
  | (k, v) :: rest, t =>
      convert v t >>= fun w => convertPairs rest t >>= fun ws => .ok ((k, w) :: ws)
termination_by l _ => (sizeOf l, 1)

/-- Pointwise field conversion for `convert` on objects: the target must
declare exactly the fields of the value, in the same canonical order. -/
def convertFields : List (String × Val) → List (String × Ty) → Except String (List (String × Val))
  | [], [] => .ok []
  | (k, v) :: rest, (k', t) :: rest' =>
      if k = k' then
        convert v t >>= fun w => convertFields rest rest' >>= fun ws => .ok ((k, w) :: ws)
      else .error "attribute name mismatch"
  | _, _ => .error "incompatible object shapes"
termination_by l _ => (sizeOf l, 1)

end

/-! ### `Block.CoerceValue` (coerce_value.go) -/

/-- One step of a `cty.Path`. -/
inductive PathStep where
  | getAttr (name : String)
  | index (key : Val)
deriving Repr

/-- A `cty.Path`. -/
abbrev CtyPath := List PathStep

/-- The outcome of `coerceValue`: a Go panic, a returned `cty.PathError`
(carrying the path it was created with), or a coerced value. -/
inductive CoerceResult where
  | panic (msg : String)
  | err (path : CtyPath) (msg : String)
  | ok (v : Val)
deriving Repr

/-- Models the Go error returns `return cty.UnknownVal(b.ImpliedType()), err`:
the `b.ImpliedType()` argument is evaluated before the return, so a schema
that makes `ImpliedType` panic turns the error return into a panic. -/
def errReturn (b : Block) (r : CoerceResult) : CoerceResult :=
  match Block.impliedType b with
  | .error m => .panic m
  | .ok _ => r

/-- The undeclared-attribute scan of `coerceValue` (lines 43-63): the first
input attribute declared neither as an attribute nor as a nested block.
(The Go loop iterates a map in unspecified order; here the input's canonical
field order is used.) -/
def undeclaredName (attrs : List SchemaAttribute) (bts : List NestedBlock) :
    List (String × Val) → Option String
  | [] => none
  | (name, _) :: rest =>
      if attrs.any (fun a => a.name = name) then undeclaredName attrs bts rest
      else if bts.any (fun nb => nb.typeName = name) then undeclaredName attrs bts rest
      else some name

/-- `Attribute.coerceValue` (lines 260-266): convert to the declared type,
attaching the attribute path to a conversion failure. -/
def SchemaAttribute.coerceValue (a : SchemaAttribute) (v : Val) (path : CtyPath) : CoerceResult :=
  match convert v a.type with
  | .error e => .err path e
  | .ok w => .ok w

/-- Can this value be iterated (`cty.Value.CanIterateElements`)? -/
def Val.canIterateElements : Val → Bool
  | .list _ _ | .set _ _ | .map _ _ | .object _ | .tuple _ => true
  | _ => false

/-- `cty.Value.LengthInt` on iterable values. -/
def Val.lengthInt : Val → Nat
  | .list _ es => es.length
  | .set _ es => es.length
  | .map _ es => es.length
  | .object fs => fs.length
  | .tuple es => es.length
  | _ => 0

/-- Number-keyed iteration pairs, for lists and tuples. -/
def enumPairs : Int → List Val → List (Val × Val)
  | _, [] => []
  | i, v :: rest => (.num i, v) :: enumPairs (i + 1) rest

/-- `cty.Value.ElementIterator` as a key/value list: lists and tuples
iterate with number keys, maps and objects with string keys, sets with the
element itself as its own key. -/
def elementPairs : Val → List (Val × Val)
  | .list _ es => enumPairs 0 es
  | .tuple es => enumPairs 0 es
  | .set _ es => es.map (fun v => (v, v))
  | .map _ es => es.map (fun p => (Val.str p.1, p.2))
  | .object fs => fs.map (fun p => (Val.str p.1, p.2))
  | _ => []

/-- Is the type an object type (`cty.Type.IsObjectType`)? -/
def Ty.isObjectTy : Ty → Bool
  | .object _ => true
  | _ => false

/-- `cty.Type.ElementType` of a collection type.  In the map-nesting branch
that consults it, the collection is always map- or set-typed (other iterable
inputs fail the string-key check first), so the default arm is unreachable. -/
def Ty.elementType : Ty → Ty
  | .list t | .set t | .map t => t
  | _ => .dynamic

/-- The per-attribute loop of `coerceValue` (lines 67-85): fetch the input
attribute, substitute null when an optional/computed attribute is absent,
fail at the block's own path when a required attribute is absent, and convert
what was found at the attribute's path. -/
def coerceAttrsLoop (b : Block) (inFields : List (String × Val)) (path : CtyPath) :
    List SchemaAttribute → List (String × Val) → Except CoerceResult (List (String × Val))
  | [], acc => .ok acc
  | a :: rest, acc =>
      match (match lookupAssoc inFields a.name with
             | some v => Except.ok v
             | none =>
                 if a.computed || a.optional then Except.ok (NullVal a.type)
                 else Except.error (errReturn b
                   (.err path ("attribute \"" ++ a.name ++ "\" is required")))) with
      | .error r => .error r
      | .ok v0 =>
          match a.coerceValue v0 (path ++ [.getAttr a.name]) with
          | .panic m => .error (.panic m)
          | .err p m => .error (errReturn b (.err p m))
          | .ok w => coerceAttrsLoop b inFields path rest (insertAssoc acc a.name w)

mutual

/-- `Block.coerceValue` body (coerce_value.go lines 30-258). -/
def Block.coerceValueIn : Block → Val → CtyPath → CoerceResult
  | .mk attrs bts, v, path =>
      if v.isNull then
        match Block.impliedType (.mk attrs bts) with
        | .error m => .panic m
        | .ok t => .ok (NullVal t)
      else if !v.isKnown then
        match Block.impliedType (.mk attrs bts) with
        | .error m => .panic m
        | .ok t => .ok (UnknownVal t)
      else
        match v with
        | .object inFields =>
            (match undeclaredName attrs bts inFields with
             | some name =>
                 errReturn (.mk attrs bts)
                   (.err path ("unexpected attribute \"" ++ name ++ "\""))
             | none =>
                 match coerceAttrsLoop (.mk attrs bts) inFields path attrs [] with
                 | .error r => r
                 | .ok acc =>
                     match coerceBlocksLoop (.mk attrs bts) inFields bts path acc with
                     | .error r => r
                     | .ok acc2 => .ok (ObjectVal acc2))
        | _ => errReturn (.mk attrs bts) (.err path "an object is required")
termination_by b _ _ => (sizeOf b, 0)

/-- The per-nested-block loop of `coerceValue` (lines 86-255).  The `path`
parameter is threaded as loop state because the Go code reassigns
`path = append(path, cty.GetAttrStep{Name: typeName})` inside the list, set
and map branches, which persists into the later iterations of the loop. -/
def coerceBlocksLoop (b : Block) (inFields : List (String × Val)) :
    List NestedBlock → CtyPath → List (String × Val) →
    Except CoerceResult (List (String × Val))
  | [], _, acc => .ok acc
  | .mk typeName nesting block :: rest, path, acc =>
      match Block.impliedType block with
      | .error m => .error (.panic m)
      | .ok impliedType =>
          match nesting with
          | .single | .group =>
              (match lookupAssoc inFields typeName with
               | some val =>
                   match Block.coerceValueIn block val (path ++ [.getAttr typeName]) with
                   | .panic m => .error (.panic m)
                   | .err p m => .error (errReturn b (.err p m))
                   | .ok w =>
                       coerceBlocksLoop b inFields rest path (insertAssoc acc typeName w)
               | none =>
                   coerceBlocksLoop b inFields rest path
                     (insertAssoc acc typeName (Block.emptyValue block)))
          | .list =>
              (match lookupAssoc inFields typeName with
               | none =>
                   coerceBlocksLoop b inFields rest path
                     (insertAssoc acc typeName (ListValEmpty impliedType))
               | some coll =>
                   if coll.isNull then
                     coerceBlocksLoop b inFields rest path
                       (insertAssoc acc typeName (NullVal (.list impliedType)))
                   else if !coll.isKnown then
                     coerceBlocksLoop b inFields rest path
                       (insertAssoc acc typeName (UnknownVal (.list impliedType)))
                   else if !coll.canIterateElements then
                     .error (errReturn b (.err path "must be a list"))
                   else if coll.lengthInt = 0 then
                     coerceBlocksLoop b inFields rest path
                       (insertAssoc acc typeName (ListValEmpty impliedType))
                   else
                     match coerceElemsList b block (elementPairs coll)
                         (path ++ [.getAttr typeName]) with
                     | .error r => .error r
                     | .ok elems =>
                         match ListVal elems with
                         | .error m => .error (.panic m)
                         | .ok lv =>
                             coerceBlocksLoop b inFields rest
                               (path ++ [.getAttr typeName]) (insertAssoc acc typeName lv))
          | .set =>
              (match lookupAssoc inFields typeName with
               | none =>
                   coerceBlocksLoop b inFields rest path
                     (insertAssoc acc typeName (SetValEmpty impliedType))
               | some coll =>
                   if coll.isNull then
                     coerceBlocksLoop b inFields rest path
                       (insertAssoc acc typeName (NullVal (.set impliedType)))
                   else if !coll.isKnown then
                     coerceBlocksLoop b inFields rest path
                       (insertAssoc acc typeName (UnknownVal (.set impliedType)))
                   else if !coll.canIterateElements then
                     .error (errReturn b (.err path "must be a set"))
                   else if coll.lengthInt = 0 then
                     coerceBlocksLoop b inFields rest path
                       (insertAssoc acc typeName (SetValEmpty impliedType))
                   else
                     match coerceElemsList b block (elementPairs coll)
                         (path ++ [.getAttr typeName]) with
                     | .error r => .error r
                     | .ok elems =>
                         match SetVal elems with
                         | .error m => .error (.panic m)
                         | .ok sv =>
                             coerceBlocksLoop b inFields rest
                               (path ++ [.getAttr typeName]) (insertAssoc acc typeName sv))
          | .map =>
              (match lookupAssoc inFields typeName with
               | none =>
                   coerceBlocksLoop b inFields rest path
                     (insertAssoc acc typeName (MapValEmpty impliedType))
               | some coll =>
                   if coll.isNull then
                     coerceBlocksLoop b inFields rest path
                       (insertAssoc acc typeName (NullVal (.map impliedType)))
                   else if !coll.isKnown then
                     coerceBlocksLoop b inFields rest path
                       (insertAssoc acc typeName (UnknownVal (.map impliedType)))
                   else if !coll.canIterateElements then
                     .error (errReturn b (.err path "must be a map"))
                   else if coll.lengthInt = 0 then
                     coerceBlocksLoop b inFields rest path
                       (insertAssoc acc typeName (MapValEmpty impliedType))
                   else
                     match coerceElemsMap b block (elementPairs coll)
                         (path ++ [.getAttr typeName]) with
                     | .error r => .error r
                     | .ok elems =>
                         let useObject :=
                           if coll.ty.isObjectTy then true
                           else elems.any (fun p => p.2.ty ≠ coll.ty.elementType)
                         if useObject then
                           coerceBlocksLoop b inFields rest
                             (path ++ [.getAttr typeName])
                             (insertAssoc acc typeName (ObjectVal elems))
                         else
                           match MapVal elems with
                           | .error m => .error (.panic m)
                           | .ok mv =>
                               coerceBlocksLoop b inFields rest
                                 (path ++ [.getAttr typeName]) (insertAssoc acc typeName mv))
          | .invalid => .error (.panic "unsupported nesting mode")
termination_by bts _ _ => (sizeOf bts, 1)

/-- The element loop of the list/set branches (lines 130-139 / 171-180):
coerce each element against the child block at its index path. -/
def coerceElemsList (b : Block) (child : Block) :
    List (Val × Val) → CtyPath → Except CoerceResult (List Val)
  | [], _ => .ok []
  | (idx, v) :: rest, path =>
      match Block.coerceValueIn child v (path ++ [.index idx]) with
      | .panic m => .error (.panic m)
      | .err p m => .error (errReturn b (.err p m))
      | .ok w =>
          match coerceElemsList b child rest path with
          | .error r => .error r
          | .ok ws => .ok (w :: ws)
termination_by l _ => (sizeOf child, 2 + sizeOf l)

/-- The element loop of the map branch (lines 211-223): every key must be a
known, non-null string; values are coerced against the child block at their
key path. -/
def coerceElemsMap (b : Block) (child : Block) :
    List (Val × Val) → CtyPath → Except CoerceResult (List (String × Val))
  | [], _ => .ok []
  | (key, v) :: rest, path =>
      match key with
      | .str k =>
          (match Block.coerceValueIn child v (path ++ [.index key]) with
           | .panic m => .error (.panic m)
           | .err p m => .error (errReturn b (.err p m))
           | .ok w =>
               match coerceElemsMap b child rest path with
               | .error r => .error r
               | .ok ws => .ok ((k, w) :: ws))
      | _ => .error (errReturn b (.err path "must be a map"))
termination_by l _ => (sizeOf child, 2 + sizeOf l)

end

/-- `Block.CoerceValue` (coerce_value.go lines 25-28): the exported entry
point starts with the empty path. -/
def Block.coerceValue (b : Block) (v : Val) : CoerceResult :=
  Block.coerceValueIn b v []

/-! ### Concrete schemas used by the claims (taken from the repository's own
test files `empty_value_test.go` and `src/unnamed/part_001`). -/

/-- A child block with one required string attribute `str`. -/
def childStrBlock : Block := .mk [⟨"str", .str, true, false, false⟩] []

/-- A child block with one required fully-dynamic attribute `str`. -/
def childDynBlock : Block := .mk [⟨"str", .dynamic, true, false, false⟩] []

/-- The `empty_value_test.go` "nested str attr" schema: one single-nested
block `single` whose child is `childStrBlock`. -/
def singleBlockSchema : Block := .mk [] [.mk "single" .single childStrBlock]

/-- The `empty_value_test.go` "list" schema: one list-nested block `list`
whose child is `childStrBlock`. -/
def listBlockSchema : Block := .mk [] [.mk "list" .list childStrBlock]

/-- A schema with a single-nested block whose child is `listBlockSchema`,
used to exhibit the conformance failure through `CoerceValue`. -/
def singleOverListSchema : Block := .mk [] [.mk "outer" .single listBlockSchema]

/-- The spec §8.2 schema: one required string attribute `name`. -/
def requiredNameSchema : Block := .mk [⟨"name", .str, true, false, false⟩] []

/-- C5 claims that `CoerceValue` on an object lacking the required attribute
`name` fails with an error whose path is the path of the missing attribute
(`.name` at top level).  The code disagrees: `coerceValue` raises the
required-attribute error with `path.NewErrorf` on the enclosing block's path
(coerce_value.go line 76), before the attribute step is appended (line 79),
so the error's path is empty at top level — which is also what the repo's own
test expects (`part_001` "missing required attribute" wants the unprefixed
message `attribute "foo" is required`).  This theorem shows the concrete
failure: the error path is `[]`, not `[.getAttr "name"]`. -/
theorem C5_counterexample :
    Block.coerceValue requiredNameSchema (.object []) =
      .err [] "attribute \"name\" is required" ∧
    ([] : CtyPath) ≠ [PathStep.getAttr "name"] := by
  constructor
  · simp [Block.coerceValue, Block.coerceValueIn, requiredNameSchema, undeclaredName,
      coerceAttrsLoop, coerceBlocksLoop, lookupAssoc, insertAssoc, errReturn,
      Block.impliedType, blockTypesImplied, nestedBlockAttrTy, attrsTypes, sortKeys, insertSorted,
      Val.isNull, Val.isKnown]
  · simp

/-- Helper for the amended C5: running the attribute loop of `coerceValue`
over attributes that are all optional or computed, with an empty input
object, never fails (each one is substituted by a null of its declared type,
which converts to itself). -/
theorem coerceAttrsLoop_optional_ok (b : Block) (path : CtyPath) :
    ∀ (pre tail : List SchemaAttribute) (acc : List (String × Val)),
      (∀ a ∈ pre, (a.computed || a.optional) = true) →
      ∃ acc', coerceAttrsLoop b [] path (pre ++ tail) acc = coerceAttrsLoop b [] path tail acc'
  | [], tail, acc, _ => ⟨acc, rfl⟩
  | a :: pre, tail, acc, h => by
      have ha : (a.computed || a.optional) = true := h a (by simp)
      have hrest : ∀ x ∈ pre, (x.computed || x.optional) = true := by
        intro x hx; exact h x (by simp [hx])
      have step : coerceAttrsLoop b [] path ((a :: pre) ++ tail) acc =
          coerceAttrsLoop b [] path (pre ++ tail) (insertAssoc acc a.name (NullVal a.type)) := by
        simp [coerceAttrsLoop, lookupAssoc, ha, SchemaAttribute.coerceValue, convert,
          Val.ty, NullVal]
      rw [step]
      exact coerceAttrsLoop_optional_ok b path pre tail _ hrest

/-- C5 (amended): for every Block declaring a required attribute named
`name` — preceded only by optional/computed attributes — and the empty input
object, `CoerceValue` fails with a required-attribute error that names the
attribute in its message but carries the path of the enclosing block (empty
at top level), not the path of the attribute itself. -/
theorem C5_amended (pre post : List SchemaAttribute) (bts : List NestedBlock)
    (name : String) (t : Ty) (T : Ty)
    (hpre : ∀ a ∈ pre, (a.computed || a.optional) = true)
    (himpl : Block.impliedType (.mk (pre ++ ⟨name, t, true, false, false⟩ :: post) bts) = .ok T) :
    Block.coerceValue (.mk (pre ++ ⟨name, t, true, false, false⟩ :: post) bts) (.object []) =
      .err [] ("attribute \"" ++ name ++ "\" is required") := by
  have hattrs := coerceAttrsLoop_optional_ok
    (.mk (pre ++ ⟨name, t, true, false, false⟩ :: post) bts) [] pre
    (⟨name, t, true, false, false⟩ :: post) [] hpre
  obtain ⟨acc', hacc⟩ := hattrs
  have hstep : coerceAttrsLoop (.mk (pre ++ ⟨name, t, true, false, false⟩ :: post) bts) [] []
      (⟨name, t, true, false, false⟩ :: post) acc' =
      .error (.err [] ("attribute \"" ++ name ++ "\" is required")) := by
    simp [coerceAttrsLoop, lookupAssoc, errReturn, himpl]
  have hund : undeclaredName (pre ++ ⟨name, t, true, false, false⟩ :: post) bts [] = none := rfl
  simp [Block.coerceValue, Block.coerceValueIn, Val.isNull, Val.isKnown, hund, hacc, hstep]

/-- Witness for `C5_amended` at the concrete spec §8.2 schema extended with a
leading optional attribute. -/
theorem C5_amended_witness :
    Block.coerceValue (.mk [⟨"opt", .str, false, true, false⟩, ⟨"name", .str, true, false, false⟩] [])
      (.object []) = .err [] "attribute \"name\" is required" :=
  C5_amended [⟨"opt", .str, false, true, false⟩] [] [] "name" .str
    (.object [("name", Ty.str), ("opt", Ty.str)])
    (by intro a ha; simp at ha; simp [ha])
    (by simp [Block.impliedType, blockTypesImplied, nestedBlockAttrTy, attrsTypes, insertAssoc, sortKeys,
      insertSorted, show keyLt "opt" "name" = false from by decide])

/-- C7 claims the per-nesting-mode empty values (null child object for
single, the child's own empty value for group, typed/untyped empty
collections for list/set/map with the dynamic-marker exceptions).  The Go
source holds that behaviour only in `NestedBlock.EmptyValue`
(src/unnamed/part_002 lines 37-63), which is dead code: `Block.EmptyValue`
reaches nested blocks through `WrapNestedBlock`, which returns the CHILD
`*Block` (schemawrapper.go line 59), so every nesting mode contributes the
child block's non-null empty object instead.  The repo's own
`empty_value_test.go` ("nested str attr" wants a null of the child object
type) contradicts the code.  This theorem shows: (1) the dead
`NestedBlock.EmptyValue` satisfies the claimed mode mapping on the test
schemas; (2) `Block.EmptyValue` on the "nested str attr" schema produces the
non-null child object, which differs from the claimed null value. -/
theorem C7_block_empty_value_ignores_nesting :
    NestedBlock.emptyValue (.mk "single" .single childStrBlock) =
      .ok (.nullV (.object [("str", .str)])) ∧
    NestedBlock.emptyValue (.mk "group" .group childStrBlock) =
      .ok (.object [("str", .nullV .str)]) ∧
    NestedBlock.emptyValue (.mk "list" .list childStrBlock) =
      .ok (.list (.object [("str", .str)]) []) ∧
    NestedBlock.emptyValue (.mk "list_dynamic" .list childDynBlock) = .ok (.tuple []) ∧
    NestedBlock.emptyValue (.mk "map" .map childStrBlock) =
      .ok (.map (.object [("str", .str)]) []) ∧
    NestedBlock.emptyValue (.mk "map_dynamic" .map childDynBlock) = .ok (.object []) ∧
    NestedBlock.emptyValue (.mk "set" .set childStrBlock) =
      .ok (.set (.object [("str", .str)]) []) ∧
    Block.emptyValue singleBlockSchema =
      .object [("single", .object [("str", .nullV .str)])] ∧
    Val.object [("single", .object [("str", .nullV .str)])] ≠
      .object [("single", .nullV (.object [("str", .str)]))] := by
  refine ⟨?_, ?_, ?_, ?_, ?_, ?_, ?_, ?_, ?_⟩ <;>
    simp [NestedBlock.emptyValue, Block.emptyValue, Block.impliedType, blockTypesImplied, nestedBlockAttrTy,
      attrsTypes, insertAssoc, sortKeys, insertSorted, childStrBlock, childDynBlock,
      singleBlockSchema, Ty.hasDynamic, Ty.hasDynamicFields, NullVal, ListValEmpty,
      MapValEmpty, SetValEmpty, EmptyTupleVal, EmptyObjectVal, blocksEmpty, attrsEmpty,
      SchemaAttribute.emptyValue, ObjectVal]

/-- C1 claims that for every Block the structural types of `EmptyValue(B)`
and of every successful `CoerceValue(B, v)` conform to `ImpliedType(B)` —
an invariant the repository's own tests assert (`empty_value_test.go` lines
207-213, `part_001` lines 600-606).  The code violates it: because
`WrapNestedBlock` returns the child `*Block`, `Block.EmptyValue` gives a
list-nested block an object value where the implied type declares a list.
On the `empty_value_test.go` "list" schema the empty value's type fails
conformance, and the same bug surfaces through `CoerceValue` (an absent
single-nested block is filled with the child's buggy empty value). -/
theorem C1_conformance_violated :
    Block.impliedType listBlockSchema =
      .ok (.object [("list", .list (.object [("str", .str)]))]) ∧
    Block.emptyValue listBlockSchema =
      .object [("list", .object [("str", .nullV .str)])] ∧
    (Block.emptyValue listBlockSchema).ty.conformsTo
      (.object [("list", .list (.object [("str", .str)]))]) = false ∧
    Block.impliedType singleOverListSchema =
      .ok (.object [("outer", .object [("list", .list (.object [("str", .str)]))])]) ∧
    Block.coerceValue singleOverListSchema (.object []) =
      .ok (.object [("outer", .object [("list", .object [("str", .nullV .str)])])]) ∧
    (Val.object [("outer", .object [("list", .object [("str", .nullV .str)])])]).ty.conformsTo
      (.object [("outer", .object [("list", .list (.object [("str", .str)]))])]) = false := by
  refine ⟨?_, ?_, ?_, ?_, ?_, ?_⟩ <;>
    simp [Block.impliedType, blockTypesImplied, nestedBlockAttrTy, attrsTypes, insertAssoc, sortKeys,
      insertSorted, Block.emptyValue, blocksEmpty, attrsEmpty, SchemaAttribute.emptyValue,
      ObjectVal, listBlockSchema, singleOverListSchema, childStrBlock, Ty.hasDynamic,
      Ty.hasDynamicFields, Val.ty, Val.tyFields, Ty.conformsTo, Ty.conformsFields, NullVal,
      Block.coerceValue, Block.coerceValueIn, Val.isNull, Val.isKnown, undeclaredName,
      coerceAttrsLoop, coerceBlocksLoop, lookupAssoc, errReturn]

/-! ### Association-list and sorting lemmas -/

theorem lookupAssoc_insert_self {α : Type} (l : List (String × α)) (k : String) (v : α) :
    lookupAssoc (insertAssoc l k v) k = some v := by
  induction l with
  | nil => simp [insertAssoc, lookupAssoc]
  | cons p rest ih =>
      obtain ⟨pk, pv⟩ := p
      by_cases h : pk = k
      · simp [insertAssoc, lookupAssoc, h]
      · simp [insertAssoc, lookupAssoc, h, ih]

theorem lookupAssoc_insert_ne {α : Type} (l : List (String × α)) (k k' : String) (v : α)
    (h : k' ≠ k) : lookupAssoc (insertAssoc l k v) k' = lookupAssoc l k' := by
  have hk : ¬(k = k') := fun hh => h hh.symm
  induction l with
  | nil => simp [insertAssoc, lookupAssoc, hk]
  | cons p rest ih =>
      obtain ⟨pk, pv⟩ := p
      by_cases hp : pk = k
      · subst hp
        simp [insertAssoc, lookupAssoc, hk]
      · simp [insertAssoc, lookupAssoc, hp, ih]

theorem lookupAssoc_mem {α : Type} (l : List (String × α)) (k : String) (v : α)
    (h : lookupAssoc l k = some v) : (k, v) ∈ l := by
  induction l with
  | nil => simp [lookupAssoc] at h
  | cons p rest ih =>
      obtain ⟨pk, pv⟩ := p
      by_cases hp : pk = k
      · subst hp
        simp [lookupAssoc] at h
        subst h
        exact List.mem_cons_self _ _
      · simp only [lookupAssoc, if_neg hp] at h
        exact List.mem_cons_of_mem _ (ih h)

theorem mem_insertSorted {α : Type} (x p : String × α) (l : List (String × α)) :
    x ∈ insertSorted p l ↔ x = p ∨ x ∈ l := by
  induction l with
  | nil => simp [insertSorted]
  | cons q rest ih =>
      simp only [insertSorted]
      by_cases h : keyLt p.1 q.1
      · rw [if_pos h]
        simp [List.mem_cons]
      · rw [if_neg h]
        simp only [List.mem_cons, ih]
        tauto

theorem mem_sortKeys {α : Type} (x : String × α) (l : List (String × α)) :
    x ∈ sortKeys l ↔ x ∈ l := by
  induction l with
  | nil => simp [sortKeys]
  | cons p rest ih =>
      simp only [sortKeys, mem_insertSorted, List.mem_cons, ih]

/-! ### `ImpliedType` per-mode characterization (claim C6) -/

/-- Keys already present in the accumulated attribute-type map survive a
successful run of the nested-block fold untouched: any later nested block
with the same name would have tripped the collision panic instead. -/
theorem blockTypesImplied_preserves :
    ∀ (bts : List NestedBlock) (atys res : List (String × Ty)) (k : String) (t : Ty),
      blockTypesImplied bts atys = .ok res →
      lookupAssoc atys k = some t → lookupAssoc res k = some t
  | [], atys, res, k, t, hok, hl => by
      simp only [blockTypesImplied, Except.ok.injEq] at hok
      rw [← hok]
      exact hl
  | .mk name nesting block :: rest, atys, res, k, t, hok, hl => by
      simp only [blockTypesImplied] at hok
      cases hcoll : lookupAssoc atys name with
      | some x => simp [hcoll] at hok
      | none =>
          simp only [hcoll, Option.isSome_none, Bool.false_eq_true, if_false] at hok
          cases hchild : Block.impliedType block with
          | error e => simp [hchild] at hok
          | ok ct =>
              simp only [hchild] at hok
              cases hm : nestedBlockAttrTy nesting ct with
              | error e => simp [hm] at hok
              | ok aty =>
                  simp only [hm] at hok
                  have hkne : k ≠ name := by
                    intro he
                    subst he
                    rw [hl] at hcoll
                    exact Option.noConfusion hcoll
                  exact blockTypesImplied_preserves rest _ res k t hok
                    (by rw [lookupAssoc_insert_ne atys name k aty hkne]; exact hl)

/-- A successful run of the nested-block fold maps every nested block to its
mode-directed attribute type. -/
theorem blockTypesImplied_mem :
    ∀ (bts : List NestedBlock) (atys res : List (String × Ty)) (nb : NestedBlock),
      blockTypesImplied bts atys = .ok res → nb ∈ bts →
      ∃ ct, Block.impliedType nb.block = .ok ct ∧
        ((nb.nesting = .single ∨ nb.nesting = .group) →
          lookupAssoc res nb.typeName = some ct) ∧
        (nb.nesting = .list →
          lookupAssoc res nb.typeName = some (if ct.hasDynamic then Ty.dynamic else .list ct)) ∧
        (nb.nesting = .map →
          lookupAssoc res nb.typeName = some (if ct.hasDynamic then Ty.dynamic else .map ct)) ∧
        (nb.nesting = .set →
          ct.hasDynamic = false ∧ lookupAssoc res nb.typeName = some (.set ct))
  | [], _, _, nb, _, hmem => by simp at hmem
  | .mk name nesting block :: rest, atys, res, nb, hok, hmem => by
      simp only [blockTypesImplied] at hok
      cases hcoll : lookupAssoc atys name with
      | some x => simp [hcoll] at hok
      | none =>
          simp only [hcoll, Option.isSome_none, Bool.false_eq_true, if_false] at hok
          cases hchild : Block.impliedType block with
          | error e => simp [hchild] at hok
          | ok ct =>
              simp only [hchild] at hok
              cases hm : nestedBlockAttrTy nesting ct with
              | error e => simp [hm] at hok
              | ok aty =>
                  simp only [hm] at hok
                  rcases List.mem_cons.1 hmem with hhead | htail
                  · subst hhead
                    have hres : lookupAssoc res name = some aty :=
                      blockTypesImplied_preserves rest _ res name aty hok
                        (lookupAssoc_insert_self atys name aty)
                    refine ⟨ct, hchild, ?_, ?_, ?_, ?_⟩ <;>
                      simp only [NestedBlock.nesting, NestedBlock.typeName]
                    · intro hmode
                      rcases hmode with h1 | h1 <;> subst h1 <;>
                        (simp only [nestedBlockAttrTy, Except.ok.injEq] at hm; rw [hm];
                         exact hres)
                    · intro hmode
                      subst hmode
                      simp only [nestedBlockAttrTy, Except.ok.injEq] at hm
                      rw [hm]
                      exact hres
                    · intro hmode
                      subst hmode
                      simp only [nestedBlockAttrTy, Except.ok.injEq] at hm
                      rw [hm]
                      exact hres
                    · intro hmode
                      subst hmode
                      simp only [nestedBlockAttrTy] at hm
                      by_cases hdyn : ct.hasDynamic = true
                      · rw [if_pos hdyn] at hm
                        exact Except.noConfusion hm
                      · rw [if_neg hdyn] at hm
                        simp only [Except.ok.injEq] at hm
                        rw [hm]
                        exact ⟨by simpa using hdyn, hres⟩
                  · exact blockTypesImplied_mem rest _ res nb hok htail

/-- A set-nested block whose child type contains the fully-dynamic marker
makes the nested-block fold fail, whatever the accumulator. -/
theorem blockTypesImplied_set_dynamic_fails :
    ∀ (bts : List NestedBlock) (nb : NestedBlock) (ct : Ty),
      nb ∈ bts → nb.nesting = .set → Block.impliedType nb.block = .ok ct →
      ct.hasDynamic = true →
      ∀ atys, ∃ e, blockTypesImplied bts atys = .error e
  | [], nb, ct, hmem, _, _, _ => by simp at hmem
  | .mk name nesting block :: rest, nb, ct, hmem, hset, hchild, hdyn => by
      intro atys
      rcases List.mem_cons.1 hmem with hhead | htail
      · subst hhead
        simp only [NestedBlock.nesting] at hset
        subst hset
        simp only [NestedBlock.block] at hchild
        cases hcoll : lookupAssoc atys name with
        | some x =>
            refine ⟨"invalid schema, blocks and attributes cannot have the same name", ?_⟩
            simp [blockTypesImplied, hcoll]
        | none =>
            refine ⟨"cannot use the dynamic pseudo-type inside a set-nested block type", ?_⟩
            simp [blockTypesImplied, hcoll, hchild, nestedBlockAttrTy, hdyn]
      · cases hcoll : lookupAssoc atys name with
        | some x =>
            refine ⟨"invalid schema, blocks and attributes cannot have the same name", ?_⟩
            simp [blockTypesImplied, hcoll]
        | none =>
            cases hc : Block.impliedType block with
            | error e =>
                refine ⟨e, ?_⟩
                simp [blockTypesImplied, hcoll, hc]
            | ok ct' =>
                cases hm : nestedBlockAttrTy nesting ct' with
                | error e =>
                    refine ⟨e, ?_⟩
                    simp [blockTypesImplied, hcoll, hc, hm]
                | ok aty =>
                    obtain ⟨e, he⟩ := blockTypesImplied_set_dynamic_fails rest nb ct htail hset
                      hchild hdyn (insertAssoc atys name aty)
                    refine ⟨e, ?_⟩
                    simp [blockTypesImplied, hcoll, hc, hm, he]

/-- C6: `ImpliedType` maps each nested block by nesting mode — single/group
contribute the child block's implied object type; list contributes
list-of-child unless the child type contains the fully-dynamic marker, in
which case the attribute type degrades to the marker itself; map behaves
like list with map-of-child; and a set whose child type contains the marker
is an invalid schema: `ImpliedType` fails fast (panics) instead of
producing a type. -/
theorem C6_implied_type_modes :
    (∀ (attrs : List SchemaAttribute) (bts : List NestedBlock) (T : Ty) (nb : NestedBlock),
      Block.impliedType (.mk attrs bts) = .ok T → nb ∈ bts →
      ∃ ct flds, Block.impliedType nb.block = .ok ct ∧ T = .object flds ∧
        ((nb.nesting = .single ∨ nb.nesting = .group) → (nb.typeName, ct) ∈ flds) ∧
        (nb.nesting = .list →
          (nb.typeName, if ct.hasDynamic then Ty.dynamic else .list ct) ∈ flds) ∧
        (nb.nesting = .map →
          (nb.typeName, if ct.hasDynamic then Ty.dynamic else .map ct) ∈ flds) ∧
        (nb.nesting = .set → ct.hasDynamic = false ∧ (nb.typeName, .set ct) ∈ flds)) ∧
    (∀ (attrs : List SchemaAttribute) (bts : List NestedBlock) (nb : NestedBlock) (ct : Ty),
      nb ∈ bts → nb.nesting = .set → Block.impliedType nb.block = .ok ct →
      ct.hasDynamic = true → ∃ e, Block.impliedType (.mk attrs bts) = .error e) := by
  constructor
  · intro attrs bts T nb hT hmem
    simp only [Block.impliedType] at hT
    cases hfold : blockTypesImplied bts (attrsTypes attrs []) with
    | error e => rw [hfold] at hT; simp at hT
    | ok res =>
        rw [hfold] at hT
        simp only [Except.ok.injEq] at hT
        obtain ⟨ct, hchild, h1, h2, h3, h4⟩ := blockTypesImplied_mem bts _ res nb hfold hmem
        refine ⟨ct, sortKeys res, hchild, hT.symm, ?_, ?_, ?_, ?_⟩
        · intro hmode
          exact (mem_sortKeys _ _).2 (lookupAssoc_mem _ _ _ (h1 hmode))
        · intro hmode
          exact (mem_sortKeys _ _).2 (lookupAssoc_mem _ _ _ (h2 hmode))
        · intro hmode
          exact (mem_sortKeys _ _).2 (lookupAssoc_mem _ _ _ (h3 hmode))
        · intro hmode
          exact ⟨(h4 hmode).1, (mem_sortKeys _ _).2 (lookupAssoc_mem _ _ _ (h4 hmode).2)⟩
  · intro attrs bts nb ct hmem hset hchild hdyn
    obtain ⟨e, he⟩ := blockTypesImplied_set_dynamic_fails bts nb ct hmem hset hchild hdyn
      (attrsTypes attrs [])
    exact ⟨e, by simp [Block.impliedType, he]⟩

/-- Witness for `C6_implied_type_modes`: a single-nested block carries its
child's implied object type, and the set-with-dynamic schema fails fast. -/
theorem C6_implied_type_modes_witness :
    (∃ ct flds, Block.impliedType childStrBlock = .ok ct ∧
      Ty.object [("single", .object [("str", .str)])] = .object flds ∧
      ("single", ct) ∈ flds) ∧
    (∃ e, Block.impliedType (.mk [] [.mk "s" .set childDynBlock]) = .error e) := by
  constructor
  · have h := C6_implied_type_modes.1 [] [.mk "single" .single childStrBlock]
      (.object [("single", .object [("str", .str)])]) (.mk "single" .single childStrBlock)
      (by simp [Block.impliedType, blockTypesImplied, attrsTypes, insertAssoc, lookupAssoc,
        sortKeys, insertSorted, childStrBlock, nestedBlockAttrTy])
      (by simp)
    obtain ⟨ct, flds, hchild, hT, h1, _, _, _⟩ := h
    exact ⟨ct, flds, hchild, hT, h1 (Or.inl rfl)⟩
  · exact C6_implied_type_modes.2 [] [.mk "s" .set childDynBlock]
      (.mk "s" .set childDynBlock) (.object [("str", .dynamic)]) (by simp) rfl
      (by simp [Block.impliedType, blockTypesImplied, attrsTypes, insertAssoc, sortKeys,
        insertSorted, childDynBlock, NestedBlock.block, nestedBlockAttrTy])
      (by simp [Ty.hasDynamic, Ty.hasDynamicFields])

/-! ### Read-only attribute discovery (provider.go lines 103-168)

`GetReadOnlyAttributes` walks each requested resource schema and emits one
regular-expression pattern per purely-computed field.  The emitted patterns
are plain strings; the `readObjBlocks` recursion threads an accumulator that
is only ever appended to. -/

/-- Models `terraformerstring.ContainsString` (the repo's helper, not under
`src/`): linear membership test on a string slice. -/
def containsString (l : List String) (s : String) : Bool := l.contains s

/-- The attribute loop of `readObjBlocks` (provider.go lines 138-162): count
purely-computed attributes and append one nesting-mode-directed pattern for
each. -/
def roAttrPatterns (nesting : NestingMode) (k parent : String) :
    List SchemaAttribute → Nat × List String → Nat × List String
  | [], st => st
  | a :: rest, (fieldCount, acc) =>
      if !a.optional && !a.required then
        roAttrPatterns nesting k parent rest
          (fieldCount + 1, acc ++
            [match nesting with
             | .list =>
                 if parent = "-1" then
                   "^" ++ k ++ "\\.[0-9]+\\." ++ a.name ++ "($|\\.[0-9]+|\\.#)"
                 else "^" ++ parent ++ "\\.(.*)\\." ++ a.name ++ "$"
             | .set =>
                 if parent = "-1" then "^" ++ k ++ "\\.[0-9]+\\." ++ a.name ++ "$"
                 else "^" ++ parent ++ "\\.(.*)\\." ++ a.name ++ "($|\\.(.*))"
             | .map => parent ++ "\\." ++ a.name
             | _ => parent ++ "\\." ++ a.name ++ "$"])
      else roAttrPatterns nesting k parent rest (fieldCount, acc)

/-- The whole-block short circuit of `readObjBlocks` (provider.go lines
163-165): when every attribute of a leaf block is purely computed, the block
path itself is emitted. -/
def roBlockTail (k : String) (cattrs : List SchemaAttribute) (cbts : List NestedBlock)
    (st : Nat × List String) : List String :=
  match st with
  | (fieldCount, acc) =>
      if fieldCount = cattrs.length && decide (0 < fieldCount) && cbts.length = 0 then
        acc ++ ["^" ++ k]
      else acc

/-- `ProviderWrapper.readObjBlocks` (provider.go lines 128-168). -/
def readObjBlocks : List NestedBlock → List String → String → List String
  | [], acc, _ => acc
  | .mk k nesting (.mk cattrs cbts) :: rest, acc, parent =>
      readObjBlocks rest
        (roBlockTail k cattrs cbts
          (roAttrPatterns nesting k parent cattrs
            (0,
              if 0 < cbts.length then
                if parent = "-1" then readObjBlocks cbts acc k
                else readObjBlocks cbts acc (parent ++ "\\.[0-9]+\\." ++ k)
              else acc)))
        parent

/-- The top-level attribute loop of `GetReadOnlyAttributes` (provider.go
lines 113-121): one pattern per purely-computed top-level attribute, with a
prefix pattern for list- or set-typed attributes. -/
def roTopAttrPatterns : List SchemaAttribute → List String → List String
  | [], acc => acc
  | a :: rest, acc =>
      if !a.optional && !a.required then
        roTopAttrPatterns rest (acc ++
          [if (match a.type with | .list _ => true | .set _ => true | _ => false) then
             "^" ++ a.name ++ "\\.(.*)"
           else "^" ++ a.name ++ "$"])
      else roTopAttrPatterns rest acc

/-- `ProviderWrapper.GetReadOnlyAttributes` (provider.go lines 103-126): for
each resource schema whose name is among the requested types, start from the
anchored `^id$`, add the top-level attribute patterns, and recurse through
`readObjBlocks` with the marker parent `"-1"`.  (The Go code iterates a map;
the schema list order stands in for that iteration order.) -/
def GetReadOnlyAttributes (resourceSchemas : List (String × Block))
    (resourceTypes : List String) : List (String × List String) :=
  match resourceSchemas with
  | [] => []
  | (name, .mk attrs bts) :: rest =>
      if containsString resourceTypes name then
        (name, readObjBlocks bts (roTopAttrPatterns attrs ["^id$"]) "-1") ::
          GetReadOnlyAttributes rest resourceTypes
      else GetReadOnlyAttributes rest resourceTypes

/-! ### A matcher for the emitted pattern language

Modelled from the spec: the consumers of the emitted patterns (the repo's own
`TestIgnoredAttributes` in `src/unnamed/part_000`, and the external
configuration renderer) interpret them with Go's `regexp.MatchString`, which
is outside `src/`.  The engine below implements standard unanchored
regular-expression search for exactly the constructs the emitted patterns
use: literals, `\`-escapes, the class `[0-9]`, `.`, `(...)` groups, `|`
alternation, `+`/`*` repetition, and the anchors `^` (leading only) and
`$`. -/

/-- Regular-expression abstract syntax for the emitted pattern subset. -/
inductive RE where
  | eps : RE
  | lit (c : Char) : RE
  | anyc : RE
  | digit : RE
  | seq (a b : RE) : RE
  | alt (a b : RE) : RE
  | star (r : RE) : RE
  | endTx : RE
deriving Repr

/-- Continuation-passing matcher: `reMatch fuel r s k` is true iff some
prefix of `s` matches `r` and `k` accepts the corresponding suffix.  `endTx`
matches only at the end of the text.  `fuel` bounds the recursion depth; the
entry point supplies more than the matcher can consume. -/
def reMatch : Nat → RE → List Char → (List Char → Bool) → Bool
  | 0, _, _, _ => false
  | fuel + 1, r, s, k =>
      match r with
      | .eps => k s
      | .endTx => s.isEmpty && k s
      | .lit c =>
          match s with
          | [] => false
          | c' :: rest => c' = c && k rest
      | .anyc =>
          match s with
          | [] => false
          | _ :: rest => k rest
      | .digit =>
          match s with
          | [] => false
          | c :: rest => c.isDigit && k rest
      | .seq a b => reMatch fuel a s (fun s' => reMatch fuel b s' k)
      | .alt a b => reMatch fuel a s k || reMatch fuel b s k
      | .star r0 =>
          k s || reMatch fuel r0 s
            (fun s' => if s'.length < s.length then reMatch fuel (.star r0) s' k else false)

mutual

/-- Parse an alternation (`a|b|…`). -/
def parseAltRE : Nat → List Char → Option (RE × List Char)
  | 0, _ => none
  | fuel + 1, s =>
      match parseSeqRE fuel s with
      | none => none
      | some (r1, s1) =>
          match s1 with
          | '|' :: s2 =>
              match parseAltRE fuel s2 with
              | none => none
              | some (r2, s3) => some (.alt r1 r2, s3)
          | _ => some (r1, s1)

/-- Parse a concatenation of postfixed atoms, stopping at `)` , `|` or the
end of the pattern. -/
def parseSeqRE : Nat → List Char → Option (RE × List Char)
  | 0, _ => none
  | fuel + 1, s =>
      match s with
      | [] => some (.eps, [])
      | ')' :: _ => some (.eps, s)
      | '|' :: _ => some (.eps, s)
      | _ =>
          match parsePostRE fuel s with
          | none => none
          | some (a, s1) =>
              match parseSeqRE fuel s1 with
              | none => none
              | some (b, s2) => some (.seq a b, s2)

/-- Parse one atom with an optional `+`/`*` postfix. -/
def parsePostRE : Nat → List Char → Option (RE × List Char)
  | 0, _ => none
  | fuel + 1, s =>
      match parseAtomRE fuel s with
      | none => none
      | some (a, s1) =>
          match s1 with
          | '+' :: s2 => some (.seq a (.star a), s2)
          | '*' :: s2 => some (.star a, s2)
          | _ => some (a, s1)

/-- Parse one atom. -/
def parseAtomRE : Nat → List Char → Option (RE × List Char)
  | 0, _ => none
  | fuel + 1, s =>
      match s with
      | [] => none
      | '\\' :: c :: rest => some (.lit c, rest)
      | '[' :: '0' :: '-' :: '9' :: ']' :: rest => some (.digit, rest)
      | '(' :: rest =>
          (match parseAltRE fuel rest with
           | none => none
           | some (r, s1) =>
               match s1 with
               | ')' :: s2 => some (r, s2)
               | _ => none)
      | '.' :: rest => some (.anyc, rest)
      | '$' :: rest => some (.endTx, rest)
      | '^' :: _ => none
      | ')' :: _ => none
      | '|' :: _ => none
      | '+' :: _ => none
      | '*' :: _ => none
      | '[' :: _ => none
      | c :: rest => some (.lit c, rest)

end

/-- Structural size of a regular expression, used to bound the matcher's
recursion depth. -/
def reSize : RE → Nat
  | .eps | .lit _ | .anyc | .digit | .endTx => 1
  | .seq a b => reSize a + reSize b + 1
  | .alt a b => reSize a + reSize b + 1
  | .star r => reSize r + 2

/-- `regexp.MatchString` for the emitted pattern subset: parse the pattern
(treating a leading `^` as the start anchor, adding an implicit `.*` prefix
otherwise), then search unanchored (trailing text is always allowed unless
the pattern ends in `$`).  Returns `none` on a pattern outside the subset. -/
def reMatchString (pattern s : String) : Option Bool :=
  match pattern.data with
  | '^' :: body =>
      (match parseAltRE (8 * (body.length + 2)) body with
       | some (r, []) =>
           some (reMatch ((reSize r + 2) * (s.data.length + 2)) r s.data (fun _ => true))
       | _ => none)
  | body =>
      (match parseAltRE (8 * (body.length + 2)) body with
       | some (r, []) =>
           some (reMatch ((reSize r + 4) * (s.data.length + 2)) (.seq (.star .anyc) r)
             s.data (fun _ => true))
       | _ => none)

/-! ### C8: read-only pattern claims -/

/-- `roAttrPatterns` only appends to its accumulated pattern list. -/
theorem roAttrPatterns_mem (nesting : NestingMode) (k parent : String) :
    ∀ (attrs : List SchemaAttribute) (fc : Nat) (acc : List String) (x : String),
      x ∈ acc → x ∈ (roAttrPatterns nesting k parent attrs (fc, acc)).2
  | [], _, _, _, hx => hx
  | a :: rest, fc, acc, x, hx => by
      simp only [roAttrPatterns]
      by_cases h : (!a.optional && !a.required) = true
      · rw [if_pos h]
        exact roAttrPatterns_mem nesting k parent rest _ _ x (List.mem_append_left _ hx)
      · rw [if_neg h]
        exact roAttrPatterns_mem nesting k parent rest _ _ x hx

/-- `roBlockTail` only appends to its accumulated pattern list. -/
theorem roBlockTail_mem (k : String) (cattrs : List SchemaAttribute)
    (cbts : List NestedBlock) (st : Nat × List String) (x : String) (hx : x ∈ st.2) :
    x ∈ roBlockTail k cattrs cbts st := by
  obtain ⟨fc, acc⟩ := st
  simp only [roBlockTail]
  by_cases h : (fc = cattrs.length && decide (0 < fc) && cbts.length = 0) = true
  · rw [if_pos h]
    exact List.mem_append_left _ hx
  · rw [if_neg h]
    exact hx

/-- `readObjBlocks` only appends to its accumulated pattern list. -/
theorem readObjBlocks_mem :
    ∀ (bts : List NestedBlock) (acc : List String) (parent : String) (x : String),
      x ∈ acc → x ∈ readObjBlocks bts acc parent
  | [], _, _, _, hx => by simpa only [readObjBlocks] using hx
  | .mk k nesting (.mk cattrs cbts) :: rest, acc, parent, x, hx => by
      simp only [readObjBlocks]
      refine readObjBlocks_mem rest _ parent x ?_
      refine roBlockTail_mem k cattrs cbts _ x ?_
      refine roAttrPatterns_mem nesting k parent cattrs 0 _ x ?_
      by_cases h : 0 < cbts.length
      · rw [if_pos h]
        by_cases hp : parent = "-1"
        · rw [if_pos hp]
          exact readObjBlocks_mem cbts acc k x hx
        · rw [if_neg hp]
          exact readObjBlocks_mem cbts acc _ x hx
      · rw [if_neg h]
        exact hx

/-- `roTopAttrPatterns` only appends to its accumulated pattern list. -/
theorem roTopAttrPatterns_mem :
    ∀ (attrs : List SchemaAttribute) (acc : List String) (x : String),
      x ∈ acc → x ∈ roTopAttrPatterns attrs acc
  | [], _, _, hx => hx
  | a :: rest, acc, x, hx => by
      simp only [roTopAttrPatterns]
      by_cases h : (!a.optional && !a.required) = true
      · rw [if_pos h]
        exact roTopAttrPatterns_mem rest _ x (List.mem_append_left _ hx)
      · rw [if_neg h]
        exact roTopAttrPatterns_mem rest _ x hx

/-- The top-level list-nesting block of the C8 scenario: `policy` with a
purely-computed `arn` and a settable `name`. -/
def policyBlockSchema : Block :=
  .mk [] [.mk "policy" .list (.mk [⟨"arn", .str, false, false, true⟩,
    ⟨"name", .str, false, true, false⟩] [])]

/-- C8: every requested resource type present in the schema gets a pattern
list containing the anchored `^id$`; and on the `policy` scenario (a
top-level list-nesting block with computed `arn` and settable `name`) the
emitted pattern list is exactly `^id$` plus the `arn` pattern, some emitted
pattern matches `policy.0.arn`, and no emitted pattern matches
`policy.0.name`. -/
theorem C8_read_only_attributes :
    (∀ (resourceSchemas : List (String × Block)) (resourceTypes : List String)
       (name : String) (b : Block),
       (name, b) ∈ resourceSchemas → containsString resourceTypes name = true →
       ∃ pats, (name, pats) ∈ GetReadOnlyAttributes resourceSchemas resourceTypes ∧
         "^id$" ∈ pats) ∧
    GetReadOnlyAttributes [("res", policyBlockSchema)] ["res"] =
      [("res", ["^id$", "^policy\\.[0-9]+\\.arn($|\\.[0-9]+|\\.#)"])] ∧
    (∃ p ∈ ["^id$", "^policy\\.[0-9]+\\.arn($|\\.[0-9]+|\\.#)"],
       reMatchString p "policy.0.arn" = some true) ∧
    (∀ p ∈ ["^id$", "^policy\\.[0-9]+\\.arn($|\\.[0-9]+|\\.#)"],
       reMatchString p "policy.0.name" = some false) := by
  refine ⟨?_, ?_, ?_, ?_⟩
  · intro resourceSchemas
    induction resourceSchemas with
    | nil => intro _ _ _ hmem _; simp at hmem
    | cons hd rest ih =>
        intro resourceTypes name b hmem hreq
        obtain ⟨hdName, hdBlock⟩ := hd
        obtain ⟨hattrs, hbts⟩ := hdBlock
        rcases List.mem_cons.1 hmem with hhead | htail
        · obtain ⟨h1, h2⟩ := Prod.mk.injEq .. ▸ hhead
          subst h1
          refine ⟨readObjBlocks hbts (roTopAttrPatterns hattrs ["^id$"]) "-1", ?_, ?_⟩
          · simp [GetReadOnlyAttributes, hreq]
          · exact readObjBlocks_mem hbts _ "-1" "^id$"
              (roTopAttrPatterns_mem hattrs ["^id$"] "^id$" (by simp))
        · obtain ⟨pats, hp, hid⟩ := ih resourceTypes name b htail hreq
          refine ⟨pats, ?_, hid⟩
          simp only [GetReadOnlyAttributes]
          by_cases hc : containsString resourceTypes hdName = true
          · rw [if_pos hc]
            exact List.mem_cons_of_mem _ hp
          · rw [if_neg hc]
            exact hp
  · simp [GetReadOnlyAttributes, policyBlockSchema, containsString, readObjBlocks,
      roTopAttrPatterns, roAttrPatterns, roBlockTail]
  · exact ⟨"^policy\\.[0-9]+\\.arn($|\\.[0-9]+|\\.#)", by simp, rfl⟩
  · intro p hp
    rcases List.mem_cons.1 hp with h | h
    · subst h; rfl
    · rcases List.mem_cons.1 h with h2 | h2
      · subst h2; rfl
      · simp at h2

/-- Witness for the universally-quantified part of `C8_read_only_attributes`
at the concrete `policy` schema. -/
theorem C8_read_only_attributes_witness :
    ∃ pats, ("res", pats) ∈ GetReadOnlyAttributes [("res", policyBlockSchema)] ["res"] ∧
      "^id$" ∈ pats :=
  C8_read_only_attributes.1 [("res", policyBlockSchema)] ["res"] "res" policyBlockSchema
    (by simp) rfl

/-! ### The bounded work pool, sequential branch (utils.go lines 259-272)

`DoWorkPooled` with `poolSize == 0` runs the task over the items in order,
collecting the non-nil outputs and aborting on the first error. -/

/-- The `poolSize == 0` loop of `DoWorkPooled` (utils.go lines 261-271). -/
def doWorkSeqGo {α ε : Type} (task : α → Except ε (Option α)) :
    List α → List α → List α × Option ε
  | [], output => (output, none)
  | item :: rest, output =>
      match task item with
      | .error e => (output, some e)
      | .ok none => doWorkSeqGo task rest output
      | .ok (some out) => doWorkSeqGo task rest (output ++ [out])

/-- `DoWorkPooled(items, 0, task)` (utils.go lines 259-272): the sequential
branch, started with an empty output slice. -/
def DoWorkPooledSeq {α ε : Type} (items : List α) (task : α → Except ε (Option α)) :
    List α × Option ε :=
  doWorkSeqGo task items []

/-- The claim's description of the outputs: the non-nil results of the
tasks, in input order (meaningful on a prefix where every task succeeds). -/
def seqOkOutputs {α ε : Type} (task : α → Except ε (Option α)) : List α → List α
  | [] => []
  | i :: rest =>
      match task i with
      | .ok (some o) => o :: seqOkOutputs task rest
      | _ => seqOkOutputs task rest

theorem doWorkSeqGo_ok {α ε : Type} (task : α → Except ε (Option α)) :
    ∀ (l acc : List α), (∀ x ∈ l, ∃ o, task x = .ok o) →
      doWorkSeqGo task l acc = (acc ++ seqOkOutputs task l, none)
  | [], acc, _ => by simp [doWorkSeqGo, seqOkOutputs]
  | i :: rest, acc, h => by
      obtain ⟨o, ho⟩ := h i (by simp)
      have hrest : ∀ x ∈ rest, ∃ o, task x = .ok o := fun x hx => h x (by simp [hx])
      cases o with
      | none => simp [doWorkSeqGo, seqOkOutputs, ho, doWorkSeqGo_ok task rest acc hrest]
      | some out =>
          simp [doWorkSeqGo, seqOkOutputs, ho, doWorkSeqGo_ok task rest (acc ++ [out]) hrest]

theorem doWorkSeqGo_err {α ε : Type} (task : α → Except ε (Option α)) (x : α) (e : ε)
    (hx : task x = .error e) :
    ∀ (pre rest acc : List α), (∀ y ∈ pre, ∃ o, task y = .ok o) →
      doWorkSeqGo task (pre ++ x :: rest) acc = (acc ++ seqOkOutputs task pre, some e)
  | [], rest, acc, _ => by simp [doWorkSeqGo, seqOkOutputs, hx]
  | i :: pre, rest, acc, h => by
      obtain ⟨o, ho⟩ := h i (by simp)
      have hpre : ∀ y ∈ pre, ∃ o, task y = .ok o := fun y hy => h y (by simp [hy])
      cases o with
      | none => simp [doWorkSeqGo, seqOkOutputs, ho, doWorkSeqGo_err task x e hx pre rest acc hpre]
      | some out =>
          simp [doWorkSeqGo, seqOkOutputs, ho,
            doWorkSeqGo_err task x e hx pre rest (acc ++ [out]) hpre]

/-- C3: `DoWorkPooled` with `poolSize == 0` executes the tasks sequentially
in input order — when no task errors it returns the non-nil outputs of all
items in input order with no error, and on the first task error it aborts
immediately, returning the outputs collected from the preceding items plus
that error (the items after the failing one are never reached). -/
theorem C3_sequential_pool :
    (∀ {α ε : Type} (items : List α) (task : α → Except ε (Option α)),
      (∀ x ∈ items, ∃ o, task x = .ok o) →
      DoWorkPooledSeq items task = (seqOkOutputs task items, none)) ∧
    (∀ {α ε : Type} (pre : List α) (x : α) (rest : List α) (e : ε)
       (task : α → Except ε (Option α)),
      (∀ y ∈ pre, ∃ o, task y = .ok o) → task x = .error e →
      DoWorkPooledSeq (pre ++ x :: rest) task = (seqOkOutputs task pre, some e)) := by
  constructor
  · intro α ε items task h
    simpa [DoWorkPooledSeq] using doWorkSeqGo_ok task items [] h
  · intro α ε pre x rest e task h hx
    simpa [DoWorkPooledSeq] using doWorkSeqGo_err task x e hx pre rest [] h

/-- Witness for `C3_sequential_pool` on concrete runs: an error-free run
returns all outputs in order, and a failing second task aborts with the
first item's output only. -/
theorem C3_sequential_pool_witness :
    DoWorkPooledSeq [1, 2, 3] (fun n => (.ok (some n) : Except String (Option Nat))) =
      ([1, 2, 3], none) ∧
    DoWorkPooledSeq [1, 2, 3]
      (fun n => if n = 2 then .error "boom" else (.ok (some n) : Except String (Option Nat))) =
      ([1], some "boom") := by
  constructor
  · have h := C3_sequential_pool.1 [1, 2, 3]
      (fun n => (.ok (some n) : Except String (Option Nat))) (by intro x _; exact ⟨some x, rfl⟩)
    simpa [seqOkOutputs] using h
  · have h := C3_sequential_pool.2 [1] 2 [3] "boom"
      (fun n => if n = 2 then .error "boom" else (.ok (some n) : Except String (Option Nat)))
      (by intro y hy; simp at hy; subst hy; exact ⟨some 1, rfl⟩) (by simp)
    simpa [seqOkOutputs] using h

/-! ### The dynamic-value codec (provider.go lines 453-474)

Modelled from the spec: `msgpack.Marshal` / `msgpack.Unmarshal` /
`json.Unmarshal` come from the external go-cty library, which is not under
`src/`.  Following the spec's wire-value description — "a compact
type-directed binary payload (decoded only with the receiver's
independently-known expected type — the payload carries no self-describing
type tags)" — the payload is modelled as a stream of msgpack-like tokens:
nil, unknown-extension, scalars, array/map headers, and (only inside the
fully-dynamic wrapper, which the real codec encodes as a `[type, value]`
pair) a type token. -/

/-- One token of the modelled msgpack stream. -/
inductive Tok where
  | nilT : Tok
  | unk : Tok
  | boolT (b : Bool) : Tok
  | intT (n : Int) : Tok
  | strT (t : String) : Tok
  | arr (n : Nat) : Tok
  | mp (n : Nat) : Tok
  | tyT (t : Ty) : Tok
deriving Repr

mutual

/-- Type-directed encoding of a value against an expected type: a
fully-dynamic expected type wraps the value with its own concrete type. -/
def encodeAt : Val → Ty → List Tok
  | v, ty => if ty = .dynamic then .arr 2 :: .tyT v.ty :: encodeOwn v else encodeConc v ty
termination_by v _ => (sizeOf v, 2)

/-- Encoding of a value at its own type, inside the dynamic wrapper (a null
or unknown of the fully-dynamic type itself stays a bare nil/unknown). -/
def encodeOwn : Val → List Tok
  | .nullV _ => [.nilT]
  | .unknown _ => [.unk]
  | v => encodeConc v v.ty
termination_by v => (sizeOf v, 1)

/-- Encoding against a concrete (non-dynamic) expected type. -/
def encodeConc : Val → Ty → List Tok
  | .nullV _, _ => [.nilT]
  | .unknown _, _ => [.unk]
  | .bool b, _ => [.boolT b]
  | .num n, _ => [.intT n]
  | .str s, _ => [.strT s]
  | .list _ es, .list et => .arr es.length :: encodeList es et
  | .set _ es, .set et => .arr es.length :: encodeList es et
  | .tuple es, .tuple ets => .arr es.length :: encodeTupleEls es ets
  | .map _ es, .map et => .mp es.length :: encodeMapEls es et
  | .object fs, .object fts => .mp fs.length :: encodeObjEls fs fts
  | _, _ => [.nilT]
termination_by v _ => (sizeOf v, 0)

def encodeList : List Val → Ty → List Tok
  | [], _ => []
  | v :: vs, et => encodeAt v et ++ encodeList vs et
termination_by es _ => (sizeOf es, 3)

def encodeTupleEls : List Val → List Ty → List Tok
  | [], _ => []
  | _ :: _, [] => []
  | v :: vs, t :: ts => encodeAt v t ++ encodeTupleEls vs ts
termination_by es _ => (sizeOf es, 3)

def encodeMapEls : List (String × Val) → Ty → List Tok
  | [], _ => []
  | (k, v) :: rest, et => .strT k :: (encodeAt v et ++ encodeMapEls rest et)
termination_by es _ => (sizeOf es, 3)

def encodeObjEls : List (String × Val) → List (String × Ty) → List Tok
  | [], _ => []
  | (k, v) :: rest, fts =>
      .strT k :: (encodeAt v ((lookupAssoc fts k).getD .dynamic) ++ encodeObjEls rest fts)
termination_by es _ => (sizeOf es, 3)

end

/-- The null/unknown payloads of a dynamic wrapper whose carried type is the
fully-dynamic marker itself. -/
def decodeDynNull : List Tok → Option (Val × List Tok)
  | .nilT :: r => some (.nullV .dynamic, r)
  | .unk :: r => some (.unknown .dynamic, r)
  | _ => none

mutual

/-- Type-directed decoding of one value from the token stream; `fuel` bounds
the recursion depth (`2 * length + 2` always suffices, see the round-trip
lemmas). -/
def decodeAt : Nat → List Tok → Ty → Option (Val × List Tok)
  | 0, _, _ => none
  | fuel + 1, toks, ty =>
      if ty = .dynamic then decodeDyn fuel toks else decodeConcT fuel toks ty

/-- Decode the fully-dynamic wrapper: a two-element array of a type token
and a value encoded at that type. -/
def decodeDyn : Nat → List Tok → Option (Val × List Tok)
  | fuel, toks =>
      match toks with
      | .arr 2 :: .tyT t :: rest =>
          if t = .dynamic then decodeDynNull rest else decodeAt fuel rest t
      | _ => none

/-- Decode against a concrete (non-dynamic) expected type. -/
def decodeConcT : Nat → List Tok → Ty → Option (Val × List Tok)
  | fuel, toks, ty =>
      match toks, ty with
      | .nilT :: r, _ => some (.nullV ty, r)
      | .unk :: r, _ => some (.unknown ty, r)
      | .boolT b :: r, .bool => some (.bool b, r)
      | .intT n :: r, .num => some (.num n, r)
      | .strT t :: r, .str => some (.str t, r)
      | .arr n :: r, .list et =>
          (match decodeN fuel n r et with
           | some (vs, r2) => some (.list et vs, r2)
           | none => none)
      | .arr n :: r, .set et =>
          (match decodeN fuel n r et with
           | some (vs, r2) => some (.set et vs, r2)
           | none => none)
      | .arr n :: r, .tuple ets =>
          if n = ets.length then
            match decodeTupleN fuel r ets with
            | some (vs, r2) => some (.tuple vs, r2)
            | none => none
          else none
      | .mp n :: r, .map et =>
          (match decodePairsN fuel n r et with
           | some (ps, r2) => some (.map et ps, r2)
           | none => none)
      | .mp n :: r, .object fts =>
          (match decodeObjN fuel n r fts with
           | some (ps, r2) => some (.object ps, r2)
           | none => none)
      | _, _ => none

/-- Decode `n` homogeneous elements. -/
def decodeN : Nat → Nat → List Tok → Ty → Option (List Val × List Tok)
  | 0, _, _, _ => none
  | _ + 1, 0, toks, _ => some ([], toks)
  | fuel + 1, n + 1, toks, et =>
      match decodeAt fuel toks et with
      | some (v, r) =>
          (match decodeN fuel n r et with
           | some (vs, r2) => some (v :: vs, r2)
           | none => none)
      | none => none

/-- Decode tuple elements, one per element type. -/
def decodeTupleN : Nat → List Tok → List Ty → Option (List Val × List Tok)
  | 0, _, _ => none
  | _ + 1, toks, [] => some ([], toks)
  | fuel + 1, toks, t :: ts =>
      match decodeAt fuel toks t with
      | some (v, r) =>
          (match decodeTupleN fuel r ts with
           | some (vs, r2) => some (v :: vs, r2)
           | none => none)
      | none => none

/-- Decode `n` string-keyed map entries. -/
def decodePairsN : Nat → Nat → List Tok → Ty → Option (List (String × Val) × List Tok)
  | 0, _, _, _ => none
  | _ + 1, 0, toks, _ => some ([], toks)
  | fuel + 1, n + 1, toks, et =>
      match toks with
      | .strT k :: r =>
          (match decodeAt fuel r et with
           | some (v, r2) =>
               (match decodePairsN fuel n r2 et with
                | some (ps, r3) => some ((k, v) :: ps, r3)
                | none => none)
           | none => none)
      | _ => none

/-- Decode `n` object attributes, each against its declared attribute type. -/
def decodeObjN : Nat → Nat → List Tok → List (String × Ty) →
    Option (List (String × Val) × List Tok)
  | 0, _, _, _ => none
  | _ + 1, 0, toks, _ => some ([], toks)
  | fuel + 1, n + 1, toks, fts =>
      match toks with
      | .strT k :: r =>
          (match decodeAt fuel r ((lookupAssoc fts k).getD .dynamic) with
           | some (v, r2) =>
               (match decodeObjN fuel n r2 fts with
                | some (ps, r3) => some ((k, v) :: ps, r3)
                | none => none)
           | none => none)
      | _ => none

end

/-- A dynamic value: a binary (msgpack) payload and a textual (JSON)
payload, as token streams (`tfprotov5.DynamicValue`). -/
structure DynamicValue where
  msgPack : List Tok
  json : List Tok
deriving Repr

/-- `NewDynamicValue` (provider.go lines 453-461): msgpack-marshal the value
against its own type; the JSON payload stays empty. -/
def NewDynamicValue (v : Val) : DynamicValue := ⟨encodeAt v v.ty, []⟩

/-- `msgpack.Unmarshal`, modelled on the token stream. -/
def msgpackUnmarshal (toks : List Tok) (ty : Ty) : Except String Val :=
  match decodeAt (2 * toks.length + 2) toks ty with
  | some (v, _) => .ok v
  | none => .error "msgpack decode failed"

/-- Modelled from the spec: the self-describing JSON fallback decoder
(go-cty's `json.Unmarshal`, outside `src/`), represented by the same
token-stream decoder; no claim exercises a non-empty JSON payload. -/
def jsonUnmarshal (toks : List Tok) (ty : Ty) : Except String Val :=
  msgpackUnmarshal toks ty

/-- `UnmarshallDynamicValue` (provider.go lines 463-474): a nil dynamic
value decodes to null; a populated msgpack payload wins over JSON; with both
payloads empty the result is null of the expected type. -/
def UnmarshallDynamicValue (dv : Option DynamicValue) (ty : Ty) : Except String Val :=
  match dv with
  | none => .ok (NullVal ty)
  | some d =>
      if 0 < d.msgPack.length then msgpackUnmarshal d.msgPack ty
      else if 0 < d.json.length then jsonUnmarshal d.json ty
      else .ok (NullVal ty)

/-! ### Well-typed values and the round-trip property (claim C9) -/

/-- No duplicate keys. -/
def keysNodupB : List String → Bool
  | [] => true
  | k :: rest => !(rest.any (fun k2 => k2 = k)) && keysNodupB rest

mutual

/-- Well-typed values: collection elements carry exactly the collection's
element type, and object attribute names are distinct (as they are for every
value built by the `cty` constructors). -/
def wfV : Val → Bool
  | .nullV _ => true
  | .unknown _ => true
  | .str _ => true
  | .num _ => true
  | .bool _ => true
  | .list et es => wfList es et
  | .set et es => wfList es et
  | .map et es => wfPairs es et
  | .object fs => wfFields fs && keysNodupB (fs.map Prod.fst)
  | .tuple es => wfAll es

def wfList : List Val → Ty → Bool
  | [], _ => true
  | v :: vs, et => decide (v.ty = et) && wfV v && wfList vs et

def wfPairs : List (String × Val) → Ty → Bool
  | [], _ => true
  | (_, v) :: rest, et => decide (v.ty = et) && wfV v && wfPairs rest et

def wfFields : List (String × Val) → Bool
  | [] => true
  | (_, v) :: rest => wfV v && wfFields rest

def wfAll : List Val → Bool
  | [] => true
  | v :: vs => wfV v && wfAll vs

end

theorem encodeConc_length_pos : ∀ (v : Val) (ty : Ty), 0 < (encodeConc v ty).length := by
  intro v ty
  cases v <;> cases ty <;> simp [encodeConc]

theorem encodeAt_length_pos (v : Val) (ty : Ty) : 0 < (encodeAt v ty).length := by
  by_cases h : ty = .dynamic
  · simp [encodeAt, h]
  · simpa [encodeAt, h] using encodeConc_length_pos v ty

theorem encodeOwn_eq_encodeConc : ∀ v : Val, encodeOwn v = encodeConc v v.ty := by
  intro v
  cases v <;> simp [encodeOwn, encodeConc, Val.ty]

theorem ty_dynamic_cases (v : Val) (h : v.ty = .dynamic) :
    v = .nullV .dynamic ∨ v = .unknown .dynamic := by
  cases v <;> simp [Val.ty] at h ⊢ <;> exact h

theorem tyList_length (es : List Val) : (Val.tyList es).length = es.length := by
  induction es with
  | nil => simp [Val.tyList]
  | cons v vs ih => simp [Val.tyList, ih]

theorem lookup_tyFields :
    ∀ (fs : List (String × Val)) (k : String) (v : Val),
      keysNodupB (fs.map Prod.fst) = true → (k, v) ∈ fs →
      lookupAssoc (Val.tyFields fs) k = some v.ty
  | [], k, v, _, hmem => by simp at hmem
  | (k0, v0) :: rest, k, v, hnd, hmem => by
      simp only [List.map, keysNodupB, Bool.and_eq_true, Bool.not_eq_true] at hnd
      obtain ⟨hnc, hnd'⟩ := hnd
      rcases List.mem_cons.1 hmem with hhead | htail
      · obtain ⟨h1, h2⟩ := Prod.mk.injEq .. ▸ hhead
        subst h1
        subst h2
        simp [Val.tyFields, lookupAssoc]
      · have hk : k0 ≠ k := by
          intro he
          subst he
          have hmm : k0 ∈ rest.map Prod.fst := List.mem_map.2 ⟨(k0, v), htail, rfl⟩
          have hany : (rest.map Prod.fst).any (fun k2 => k2 = k0) = true := by
            simp only [List.any_eq_true, decide_eq_true_eq]
            exact ⟨k0, hmm, rfl⟩
          simp [hany] at hnc
        simp only [Val.tyFields, lookupAssoc, if_neg hk]
        exact lookup_tyFields rest k v hnd' htail

mutual

theorem rtAt : ∀ (v : Val) (ty : Ty) (rest : List Tok) (fuel : Nat),
    wfV v = true → (ty = .dynamic ∨ v.ty = ty) →
    2 * (encodeAt v ty ++ rest).length + 2 ≤ fuel →
    decodeAt fuel (encodeAt v ty ++ rest) ty = some (v, rest)
  | v, ty, rest, fuel, hwf, hcompat, hfuel => by
      by_cases hdyn : ty = .dynamic
      · subst hdyn
        have henc : encodeAt v .dynamic = .arr 2 :: .tyT v.ty :: encodeOwn v := by
          simp [encodeAt]
        rw [henc] at hfuel ⊢
        obtain ⟨f, rfl⟩ : ∃ f, fuel = f + 1 := by
          refine ⟨fuel - 1, ?_⟩
          simp at hfuel
          omega
        by_cases hvd : v.ty = .dynamic
        · rcases ty_dynamic_cases v hvd with hv | hv <;> subst hv <;>
            simp [decodeAt, decodeDyn, decodeDynNull, encodeOwn, Val.ty]
        · have hown := encodeOwn_eq_encodeConc v
          have hstep : decodeAt (f + 1) ((.arr 2 :: .tyT v.ty :: encodeOwn v) ++ rest)
              .dynamic = decodeAt f (encodeOwn v ++ rest) v.ty := by
            simp [decodeAt, decodeDyn, hvd]
          rw [hstep, hown]
          refine rtConc v v.ty rest f hwf rfl hvd ?_
          rw [hown] at hfuel
          simp only [List.cons_append, List.length_cons] at hfuel ⊢
          omega
      · rcases hcompat with h | hty
        · exact absurd h hdyn
        · have henc : encodeAt v ty = encodeConc v ty := by simp [encodeAt, hdyn]
          rw [henc] at hfuel ⊢
          exact rtConc v ty rest fuel hwf hty hdyn hfuel
termination_by v _ _ _ => (sizeOf v, 2)

theorem rtConc : ∀ (v : Val) (ty : Ty) (rest : List Tok) (fuel : Nat),
    wfV v = true → v.ty = ty → ty ≠ .dynamic →
    2 * (encodeConc v ty ++ rest).length + 2 ≤ fuel →
    decodeAt fuel (encodeConc v ty ++ rest) ty = some (v, rest)
  | v, ty, rest, fuel, hwf, hty, hne, hfuel => by
      obtain ⟨f, rfl⟩ : ∃ f, fuel = f + 1 := by
        refine ⟨fuel - 1, ?_⟩
        have := encodeConc_length_pos v ty
        simp at hfuel
        omega
      cases v with
      | nullV t =>
          simp only [Val.ty] at hty
          subst hty
          simp [encodeConc, decodeAt, decodeConcT, hne]
      | unknown t =>
          simp only [Val.ty] at hty
          subst hty
          simp [encodeConc, decodeAt, decodeConcT, hne]
      | bool b =>
          simp only [Val.ty] at hty
          subst hty
          simp [encodeConc, decodeAt, decodeConcT]
      | num n =>
          simp only [Val.ty] at hty
          subst hty
          simp [encodeConc, decodeAt, decodeConcT]
      | str t =>
          simp only [Val.ty] at hty
          subst hty
          simp [encodeConc, decodeAt, decodeConcT]
      | list et es =>
          simp only [Val.ty] at hty
          subst hty
          have hwf' : wfList es et = true := by simpa [wfV] using hwf
          have henc : encodeConc (.list et es) (.list et) =
              .arr es.length :: encodeList es et := by simp [encodeConc]
          rw [henc] at hfuel ⊢
          have hrec := rtList es et rest f hwf' (by
            simp only [List.cons_append, List.length_cons] at hfuel
            omega)
          simp [decodeAt, decodeConcT, hrec]
      | set et es =>
          simp only [Val.ty] at hty
          subst hty
          have hwf' : wfList es et = true := by simpa [wfV] using hwf
          have henc : encodeConc (.set et es) (.set et) =
              .arr es.length :: encodeList es et := by simp [encodeConc]
          rw [henc] at hfuel ⊢
          have hrec := rtList es et rest f hwf' (by
            simp only [List.cons_append, List.length_cons] at hfuel
            omega)
          simp [decodeAt, decodeConcT, hrec]
      | map et es =>
          simp only [Val.ty] at hty
          subst hty
          have hwf' : wfPairs es et = true := by simpa [wfV] using hwf
          have henc : encodeConc (.map et es) (.map et) =
              .mp es.length :: encodeMapEls es et := by simp [encodeConc]
          rw [henc] at hfuel ⊢
          have hrec := rtPairs es et rest f hwf' (by
            simp only [List.cons_append, List.length_cons] at hfuel
            omega)
          simp [decodeAt, decodeConcT, hrec]
      | object fs =>
          simp only [Val.ty] at hty
          subst hty
          have hwf' : wfFields fs = true ∧ keysNodupB (fs.map Prod.fst) = true := by
            simpa [wfV] using hwf
          have henc : encodeConc (.object fs) (.object (Val.tyFields fs)) =
              .mp fs.length :: encodeObjEls fs (Val.tyFields fs) := by simp [encodeConc]
          rw [henc] at hfuel ⊢
          have hcomp : ∀ k v, (k, v) ∈ fs →
              ((lookupAssoc (Val.tyFields fs) k).getD .dynamic = .dynamic ∨
                v.ty = (lookupAssoc (Val.tyFields fs) k).getD .dynamic) := by
            intro k v hm
            right
            rw [lookup_tyFields fs k v hwf'.2 hm]
            rfl
          have hrec := rtObj fs (Val.tyFields fs) rest f hwf'.1 hcomp (by
            simp only [List.cons_append, List.length_cons] at hfuel
            omega)
          simp [decodeAt, decodeConcT, hrec]
      | tuple es =>
          simp only [Val.ty] at hty
          subst hty
          have hwf' : wfAll es = true := by simpa [wfV] using hwf
          have henc : encodeConc (.tuple es) (.tuple (Val.tyList es)) =
              .arr es.length :: encodeTupleEls es (Val.tyList es) := by simp [encodeConc]
          rw [henc] at hfuel ⊢
          have hrec := rtTuple es rest f hwf' (by
            simp only [List.cons_append, List.length_cons] at hfuel
            omega)
          simp [decodeAt, decodeConcT, hrec, tyList_length]
termination_by v _ _ _ => (sizeOf v, 1)

theorem rtList : ∀ (es : List Val) (et : Ty) (rest : List Tok) (fuel : Nat),
    wfList es et = true →
    2 * (encodeList es et ++ rest).length + 3 ≤ fuel →
    decodeN fuel es.length (encodeList es et ++ rest) et = some (es, rest)
  | [], et, rest, fuel, _, hfuel => by
      obtain ⟨f, rfl⟩ : ∃ f, fuel = f + 1 := ⟨fuel - 1, by omega⟩
      simp [encodeList, decodeN]
  | v :: vs, et, rest, fuel, hwf, hfuel => by
      obtain ⟨f, rfl⟩ : ∃ f, fuel = f + 1 := ⟨fuel - 1, by omega⟩
      obtain ⟨⟨hty, hwfv⟩, hwfvs⟩ :
          (v.ty = et ∧ wfV v = true) ∧ wfList vs et = true := by
        simpa [wfList] using hwf
      have henc : encodeList (v :: vs) et ++ rest =
          encodeAt v et ++ (encodeList vs et ++ rest) := by simp [encodeList]
      rw [henc] at hfuel ⊢
      have h1 := rtAt v et (encodeList vs et ++ rest) f hwfv (Or.inr hty) (by
        simp only [List.length_append] at hfuel ⊢
        omega)
      have h2 := rtList vs et rest f hwfvs (by
        have := encodeAt_length_pos v et
        simp only [List.length_append] at hfuel ⊢
        omega)
      simp [decodeN, h1, h2]
termination_by es _ _ _ => (sizeOf es, 3)

theorem rtTuple : ∀ (es : List Val) (rest : List Tok) (fuel : Nat),
    wfAll es = true →
    2 * (encodeTupleEls es (Val.tyList es) ++ rest).length + 3 ≤ fuel →
    decodeTupleN fuel (encodeTupleEls es (Val.tyList es) ++ rest) (Val.tyList es) =
      some (es, rest)
  | [], rest, fuel, _, hfuel => by
      obtain ⟨f, rfl⟩ : ∃ f, fuel = f + 1 := ⟨fuel - 1, by omega⟩
      simp [encodeTupleEls, Val.tyList, decodeTupleN]
  | v :: vs, rest, fuel, hwf, hfuel => by
      obtain ⟨f, rfl⟩ : ∃ f, fuel = f + 1 := ⟨fuel - 1, by omega⟩
      obtain ⟨hwfv, hwfvs⟩ : wfV v = true ∧ wfAll vs = true := by
        simpa [wfAll] using hwf
      have henc : encodeTupleEls (v :: vs) (Val.tyList (v :: vs)) ++ rest =
          encodeAt v v.ty ++ (encodeTupleEls vs (Val.tyList vs) ++ rest) := by
        simp [encodeTupleEls, Val.tyList]
      have hty : Val.tyList (v :: vs) = v.ty :: Val.tyList vs := by simp [Val.tyList]
      rw [henc] at hfuel
      rw [henc, hty]
      have h1 := rtAt v v.ty (encodeTupleEls vs (Val.tyList vs) ++ rest) f hwfv
        (Or.inr rfl) (by
          simp only [List.length_append] at hfuel ⊢
          omega)
      have h2 := rtTuple vs rest f hwfvs (by
        have := encodeAt_length_pos v v.ty
        simp only [List.length_append] at hfuel ⊢
        omega)
      simp [decodeTupleN, h1, h2]
termination_by es _ _ => (sizeOf es, 3)

theorem rtPairs : ∀ (ps : List (String × Val)) (et : Ty) (rest : List Tok) (fuel : Nat),
    wfPairs ps et = true →
    2 * (encodeMapEls ps et ++ rest).length + 3 ≤ fuel →
    decodePairsN fuel ps.length (encodeMapEls ps et ++ rest) et = some (ps, rest)
  | [], et, rest, fuel, _, hfuel => by
      obtain ⟨f, rfl⟩ : ∃ f, fuel = f + 1 := ⟨fuel - 1, by omega⟩
      simp [encodeMapEls, decodePairsN]
  | (k, v) :: ps, et, rest, fuel, hwf, hfuel => by
      obtain ⟨f, rfl⟩ : ∃ f, fuel = f + 1 := ⟨fuel - 1, by omega⟩
      obtain ⟨⟨hty, hwfv⟩, hwfps⟩ :
          (v.ty = et ∧ wfV v = true) ∧ wfPairs ps et = true := by
        simpa [wfPairs] using hwf
      have henc : encodeMapEls ((k, v) :: ps) et ++ rest =
          .strT k :: (encodeAt v et ++ (encodeMapEls ps et ++ rest)) := by
        simp [encodeMapEls]
      rw [henc] at hfuel ⊢
      have h1 := rtAt v et (encodeMapEls ps et ++ rest) f hwfv (Or.inr hty) (by
        simp only [List.cons_append, List.length_cons, List.length_append] at hfuel ⊢
        omega)
      have h2 := rtPairs ps et rest f hwfps (by
        have := encodeAt_length_pos v et
        simp only [List.cons_append, List.length_cons, List.length_append] at hfuel ⊢
        omega)
      simp [decodePairsN, h1, h2]
termination_by ps _ _ _ => (sizeOf ps, 3)

theorem rtObj : ∀ (ps : List (String × Val)) (fts : List (String × Ty)) (rest : List Tok)
    (fuel : Nat),
    wfFields ps = true →
    (∀ k v, (k, v) ∈ ps →
      ((lookupAssoc fts k).getD .dynamic = .dynamic ∨
        v.ty = (lookupAssoc fts k).getD .dynamic)) →
    2 * (encodeObjEls ps fts ++ rest).length + 3 ≤ fuel →
    decodeObjN fuel ps.length (encodeObjEls ps fts ++ rest) fts = some (ps, rest)
  | [], fts, rest, fuel, _, _, hfuel => by
      obtain ⟨f, rfl⟩ : ∃ f, fuel = f + 1 := ⟨fuel - 1, by omega⟩
      simp [encodeObjEls, decodeObjN]
  | (k, v) :: ps, fts, rest, fuel, hwf, hcomp, hfuel => by
      obtain ⟨f, rfl⟩ : ∃ f, fuel = f + 1 := ⟨fuel - 1, by omega⟩
      obtain ⟨hwfv, hwfps⟩ : wfV v = true ∧ wfFields ps = true := by
        simpa [wfFields] using hwf
      have henc : encodeObjEls ((k, v) :: ps) fts ++ rest =
          .strT k :: (encodeAt v ((lookupAssoc fts k).getD .dynamic) ++
            (encodeObjEls ps fts ++ rest)) := by
        simp [encodeObjEls]
      rw [henc] at hfuel ⊢
      have hc := hcomp k v (by simp)
      have h1 := rtAt v ((lookupAssoc fts k).getD .dynamic)
        (encodeObjEls ps fts ++ rest) f hwfv (by tauto) (by
          simp only [List.cons_append, List.length_cons, List.length_append] at hfuel ⊢
          omega)
      have h2 := rtObj ps fts rest f hwfps
        (fun k2 v2 hm => hcomp k2 v2 (by simp [hm])) (by
          have := encodeAt_length_pos v ((lookupAssoc fts k).getD .dynamic)
          simp only [List.cons_append, List.length_cons, List.length_append] at hfuel ⊢
          omega)
      simp [decodeObjN, h1, h2]
termination_by ps _ _ _ => (sizeOf ps, 3)

end

/-- C9: for every well-typed value whose type is the implied type `T` of its
Block, decoding the dynamic-value encoding of the value against `T`
(`UnmarshallDynamicValue` after `NewDynamicValue`) reproduces the value. -/
theorem C9_dynamic_value_roundtrip (B : Block) (T : Ty) (v : Val)
    (_hB : Block.impliedType B = .ok T) (hwf : wfV v = true) (hty : v.ty = T) :
    UnmarshallDynamicValue (some (NewDynamicValue v)) T = .ok v := by
  have hpos := encodeAt_length_pos v v.ty
  have hrt := rtAt v v.ty [] (2 * (encodeAt v v.ty).length + 2) hwf (Or.inr rfl)
    (by simp)
  rw [hty] at hrt
  simp only [UnmarshallDynamicValue, NewDynamicValue, if_pos hpos, msgpackUnmarshal]
  rw [← hty] at hrt ⊢
  simp only [List.append_nil] at hrt
  rw [hrt]

/-- Witness for `C9_dynamic_value_roundtrip` on a concrete schema and
value. -/
theorem C9_dynamic_value_roundtrip_witness :
    UnmarshallDynamicValue (some (NewDynamicValue (.object [("name", .str "x")])))
      (.object [("name", .str)]) = .ok (.object [("name", .str "x")]) :=
  C9_dynamic_value_roundtrip requiredNameSchema (.object [("name", .str)])
    (.object [("name", .str "x")])
    (by simp [requiredNameSchema, Block.impliedType, blockTypesImplied, attrsTypes,
      insertAssoc, sortKeys, insertSorted])
    (by simp [wfV, wfFields, keysNodupB])
    (by simp [Val.ty, Val.tyFields])

/-- C10: decoding a nil dynamic value, or one whose msgpack and JSON
payloads are both empty, yields the null value of the expected type with no
error. -/
theorem C10_empty_dynamic_value_is_null (ty : Ty) :
    UnmarshallDynamicValue none ty = .ok (NullVal ty) ∧
    UnmarshallDynamicValue (some ⟨[], []⟩) ty = .ok (NullVal ty) := by
  constructor
  · simp [UnmarshallDynamicValue]
  · simp [UnmarshallDynamicValue]

/-! ### Resource refresh orchestration (provider.go lines 170-233, claim C2) -/

/-- One `ReadResource` outcome as `Refresh` sees it.  The tfplugin client
(client.go lines 202-219) returns a nil response together with the error on
transport failures, and a non-nil response together with the error on
error-severity diagnostics; the two behave differently inside `Refresh`
because the retry path dereferences the response while logging. -/
inductive ReadOutcome where
  | rpcErrNilResp (e : String)
  | respErr (e : String)
  | ok (newState : Option DynamicValue)

/-- The result of one `Refresh` run: the Go nil-dereference panic from
`log.Println(resp.Diagnostics)` (provider.go line 190) on a nil response, an
error return, or the decoded new state. -/
inductive RefreshOut where
  | panicked
  | err (e : String)
  | ok (v : Val)
deriving Repr

/-- The outcome of the retry loop (provider.go lines 182-203). -/
inductive RefreshLoopRes where
  | panicked
  | success (d : DynamicValue)
  | exhausted

/-- The retry loop of `Refresh` (provider.go lines 182-203), reading attempt
`i` with `n` attempts remaining: an RPC error with a nil response panics at
the logging line; an RPC error with a response, or a null new state, sleeps
and retries; a non-null new state succeeds. -/
def refreshReadLoop (reads : Nat → ReadOutcome) : Nat → Nat → RefreshLoopRes
  | _, 0 => .exhausted
  | i, n + 1 =>
      match reads i with
      | .rpcErrNilResp _ => .panicked
      | .respErr _ => refreshReadLoop reads (i + 1) n
      | .ok none => refreshReadLoop reads (i + 1) n
      | .ok (some d) => .success d

/-- The ResourceUnreadableError message (provider.go line 217). -/
def resourceUnreadableMsg : String := "not able to import resource for a given ID"

/-- `ProviderWrapper.Refresh` (provider.go lines 170-233), parameterized by
the retry budget, the per-attempt read oracle, the import-RPC response (an
error, or the imported resources' states), and the resource type's implied
type.  The first component records whether the import-by-ID RPC was issued.
On a successful read the non-null new state is decoded against the implied
type; after exhausted retries the import result is consulted: an import
error is returned as-is (line 214), zero imported resources yield
ResourceUnreadableError (line 217), and otherwise the first imported
resource's state (which may itself be nil) is decoded. -/
def Refresh (retryCount : Nat) (reads : Nat → ReadOutcome)
    (importRes : Except String (List (Option DynamicValue))) (ty : Ty) :
    Bool × RefreshOut :=
  match refreshReadLoop reads 0 retryCount with
  | .panicked => (false, .panicked)
  | .success d =>
      (false,
        match UnmarshallDynamicValue (some d) ty with
        | .error e => .err e
        | .ok v => .ok v)
  | .exhausted =>
      (true,
        match importRes with
        | .error e => .err e
        | .ok [] => .err resourceUnreadableMsg
        | .ok (r :: _) =>
            match UnmarshallDynamicValue r ty with
            | .error e => .err e
            | .ok v => .ok v)

/-- A retried (non-fatal, non-successful) attempt: an RPC error carrying a
response, or a null returned state. -/
def retriedAttempt (reads : Nat → ReadOutcome) (k : Nat) : Prop :=
  (∃ e, reads k = .respErr e) ∨ reads k = .ok none

theorem refreshReadLoop_skip (reads : Nat → ReadOutcome) :
    ∀ (j n i : Nat), j ≤ n → (∀ k, k < j → retriedAttempt reads (i + k)) →
      refreshReadLoop reads i n = refreshReadLoop reads (i + j) (n - j)
  | 0, n, i, _, _ => by simp
  | j + 1, n, i, hle, hfail => by
      obtain ⟨m, rfl⟩ : ∃ m, n = m + 1 := ⟨n - 1, by omega⟩
      have h0 := hfail 0 (by omega)
      simp only [Nat.add_zero] at h0
      have hrest : ∀ k, k < j → retriedAttempt reads ((i + 1) + k) := by
        intro k hk
        have := hfail (k + 1) (by omega)
        simpa [Nat.add_assoc, Nat.add_comm 1 k] using this
      have hstep : refreshReadLoop reads i (m + 1) = refreshReadLoop reads (i + 1) m := by
        rcases h0 with ⟨e, he⟩ | he <;> simp [refreshReadLoop, he]
      have harith1 : i + 1 + j = i + (j + 1) := by omega
      have harith2 : m - j = m + 1 - (j + 1) := by omega
      rw [hstep, refreshReadLoop_skip reads j m (i + 1) (by omega) hrest, harith1, harith2]

/-- C2 as stated is false on the code in two ways.  (1) An RPC failure whose
response is nil makes `Refresh` panic at the diagnostics-logging line
instead of retrying, so a later successful attempt is never reached.  (2)
When every attempt fails and the fallback import RPC itself errors,
`Refresh` returns that import error unchanged (provider.go line 214), not
ResourceUnreadableError. -/
theorem C2_counterexample :
    Refresh 2
      (fun i => if i = 0 then .rpcErrNilResp "transport"
        else .ok (some (NewDynamicValue (.str "s")))) (.ok []) .str =
      (false, .panicked) ∧
    Refresh 1 (fun _ => .respErr "diag") (.error "boom") .str = (true, .err "boom") ∧
    "boom" ≠ resourceUnreadableMsg := by
  refine ⟨?_, ?_, ?_⟩
  · simp [Refresh, refreshReadLoop]
  · simp [Refresh, refreshReadLoop]
  · simp [resourceUnreadableMsg]

/-- C2 (amended): consider a refresh whose failed attempts are of the
retried kind (an RPC error accompanied by a response, or a null returned
state).  If some attempt `j` within the `n` attempts returns a non-null
state and every earlier attempt failed, `Refresh` decodes and returns that
state and never issues the import RPC.  If all `n` attempts fail, `Refresh`
issues the import RPC and: uses the first imported resource's decoded state
when at least one is returned; fails with ResourceUnreadableError when
the import returns zero resources; and fails with the import's own error when
the import itself errors.  (An RPC failure with a nil response instead
panics — see `C2_counterexample`.) -/
theorem C2_refresh_retry_then_import :
    (∀ (n : Nat) (reads : Nat → ReadOutcome)
       (ir : Except String (List (Option DynamicValue))) (ty : Ty) (j : Nat)
       (d : DynamicValue),
      j < n → (∀ k, k < j → retriedAttempt reads k) → reads j = .ok (some d) →
      Refresh n reads ir ty =
        (false,
          match UnmarshallDynamicValue (some d) ty with
          | .error e => .err e
          | .ok v => .ok v)) ∧
    (∀ (n : Nat) (reads : Nat → ReadOutcome)
       (ir : Except String (List (Option DynamicValue))) (ty : Ty),
      (∀ k, k < n → retriedAttempt reads k) →
      Refresh n reads ir ty =
        (true,
          match ir with
          | .error e => .err e
          | .ok [] => .err resourceUnreadableMsg
          | .ok (r :: _) =>
              match UnmarshallDynamicValue r ty with
              | .error e => .err e
              | .ok v => .ok v)) := by
  constructor
  · intro n reads ir ty j d hj hfail hok
    have hskip := refreshReadLoop_skip reads j n 0 (by omega)
      (by intro k hk; simpa using hfail k hk)
    have hsucc : refreshReadLoop reads (0 + j) (n - j) = .success d := by
      obtain ⟨m, hm⟩ : ∃ m, n - j = m + 1 := ⟨n - j - 1, by omega⟩
      rw [hm]
      simp [refreshReadLoop, hok]
    simp only [Refresh, hskip, hsucc]
  · intro n reads ir ty hfail
    have hskip := refreshReadLoop_skip reads n n 0 (by omega)
      (by intro k hk; simpa using hfail k hk)
    have hex : refreshReadLoop reads (0 + n) (n - n) = .exhausted := by
      simp [refreshReadLoop]
    simp only [Refresh, hskip, hex]

/-- Witness for `C2_refresh_retry_then_import`: a read that fails twice (a
diagnostics error, then a null state) and succeeds on the third of three
attempts returns the decoded state without importing; three failing
attempts followed by an import that returns one resource use that
resource's decoded state. -/
theorem C2_refresh_retry_then_import_witness :
    Refresh 3
      (fun i => if i = 0 then .respErr "x" else if i = 1 then .ok none
        else .ok (some (NewDynamicValue (.str "s"))))
      (.ok []) .str = (false, .ok (.str "s")) ∧
    Refresh 3 (fun _ => .ok none)
      (.ok [some (NewDynamicValue (.str "t"))]) .str = (true, .ok (.str "t")) := by
  have hdec : ∀ t : String,
      UnmarshallDynamicValue (some (NewDynamicValue (.str t))) .str = .ok (.str t) := by
    intro t
    simp [UnmarshallDynamicValue, NewDynamicValue, msgpackUnmarshal, encodeAt, encodeConc,
      Val.ty, decodeAt, decodeConcT]
  constructor
  · have h := C2_refresh_retry_then_import.1 3
      (fun i => if i = 0 then .respErr "x" else if i = 1 then .ok none
        else .ok (some (NewDynamicValue (.str "s"))))
      (.ok []) .str 2 (NewDynamicValue (.str "s")) (by omega)
      (by
        intro k hk
        interval_cases k
        · exact Or.inl ⟨"x", rfl⟩
        · exact Or.inr rfl)
      rfl
    rw [h, hdec "s"]
  · have h := C2_refresh_retry_then_import.2 3 (fun _ => .ok none)
      (.ok [some (NewDynamicValue (.str "t"))]) .str
      (by intro k _; exact Or.inr rfl)
    rw [h]
    simp only [hdec "t"]

/-! ### The bounded work pool, concurrent branch (utils.go lines 274-327,
claim C4)

The pooled branch is modelled as a transition system over snapshots of the
shared state.  Worker transitions follow the goroutine body (lines 288-310):
pull an item and run the task — on success send the output and call
`wg.Done()` (line 303); on the first error send to `errout` and `cancel()`
(lines 297-298), calling no `wg.Done()`; on a second error block forever on
the full one-slot `errout` channel.  Workers may exit when the queue is
empty or after cancellation.  The main goroutine's `wg.Wait()` (line 313)
can return only when the WaitGroup counter reaches zero. -/

/-- A snapshot of the pooled `DoWorkPooled` run: the pre-loaded closed input
queue, the buffered output channel, the one-slot error channel, the
cancellation flag, the WaitGroup counter, the number of workers still
looping, the workers blocked forever on a second error send, whether
`wg.Wait()` has returned, and a ghost count of errored task invocations. -/
structure PoolState (α : Type) where
  queue : List α
  outputs : List α
  errSlot : Option String
  cancelled : Bool
  wgCount : Nat
  running : Nat
  blocked : Nat
  waitDone : Bool
  errCount : Nat

/-- The state right after lines 274-285: all items queued, `wg.Add(n)` done,
`poolSize` workers started, nothing produced yet. -/
def initPoolState {α : Type} (items : List α) (poolSize : Nat) : PoolState α :=
  ⟨items, [], none, false, items.length, poolSize, 0, false, 0⟩

/-- One scheduler step of the pooled branch. -/
inductive PoolStep {α : Type} (task : α → Except String (Option α)) :
    PoolState α → PoolState α → Prop where
  | takeOk : ∀ s item rest out, 0 < s.running → s.queue = item :: rest →
      task item = .ok out →
      PoolStep task s
        { s with queue := rest, outputs := s.outputs ++ out.toList,
                 wgCount := s.wgCount - 1 }
  | takeErrFirst : ∀ s item rest e, 0 < s.running → s.queue = item :: rest →
      task item = .error e → s.errSlot = none →
      PoolStep task s
        { s with queue := rest, errSlot := some e, cancelled := true,
                 errCount := s.errCount + 1 }
  | takeErrBlocked : ∀ s item rest e, 0 < s.running → s.queue = item :: rest →
      task item = .error e → s.errSlot ≠ none →
      PoolStep task s
        { s with queue := rest, running := s.running - 1,
                 blocked := s.blocked + 1, errCount := s.errCount + 1 }
  | exitEmpty : ∀ s, 0 < s.running → s.queue = [] →
      PoolStep task s { s with running := s.running - 1 }
  | exitCancelled : ∀ s, 0 < s.running → s.cancelled = true →
      PoolStep task s { s with running := s.running - 1 }
  | waitReturns : ∀ s, s.wgCount = 0 → s.waitDone = false →
      PoolStep task s { s with waitDone := true }

/-- The states a pooled run can reach from its initial state. -/
def PoolReachable {α : Type} (task : α → Except String (Option α)) (items : List α)
    (poolSize : Nat) (s : PoolState α) : Prop :=
  Relation.ReflTransGen (PoolStep task) (initPoolState items poolSize) s

/-- The WaitGroup counter always dominates the errored tasks plus the items
still queued (`wg.Done()` runs only on the success path), and `wg.Wait()`
returns only at counter zero. -/
theorem pool_invariant {α : Type} (task : α → Except String (Option α))
    (items : List α) (poolSize : Nat) (s : PoolState α)
    (h : PoolReachable task items poolSize s) :
    s.errCount + s.queue.length ≤ s.wgCount ∧ (s.waitDone = true → s.wgCount = 0) := by
  induction h with
  | refl => simp [initPoolState]
  | tail _ hstep ih =>
      obtain ⟨ih1, ih2⟩ := ih
      cases hstep with
      | takeOk item rest out hrun hq htask =>
          rw [hq] at ih1
          simp only [List.length_cons] at ih1
          constructor
          · simp only
            omega
          · intro hw
            simp only at hw ⊢
            have := ih2 hw
            omega
      | takeErrFirst item rest e hrun hq htask hslot =>
          rw [hq] at ih1
          simp only [List.length_cons] at ih1
          constructor
          · simp only
            omega
          · intro hw
            simp only at hw ⊢
            exact ih2 hw
      | takeErrBlocked item rest e hrun hq htask hslot =>
          rw [hq] at ih1
          simp only [List.length_cons] at ih1
          constructor
          · simp only
            omega
          · intro hw
            simp only at hw ⊢
            exact ih2 hw
      | exitEmpty hrun hq =>
          exact ⟨ih1, ih2⟩
      | exitCancelled hrun hc =>
          exact ⟨ih1, ih2⟩
      | waitReturns hwg hwd =>
          exact ⟨ih1, fun _ => hwg⟩

/-- C4 claims the pooled branch never deadlocks and returns exactly once
with the partial outputs and the retained first error.  The code cannot do
that: the error path of the worker body skips `wg.Done()` (lines 296-298),
so once any task has errored the WaitGroup counter can never reach zero
again and `wg.Wait()` (line 313) — which the function must pass before it
can return anything — blocks forever.  Formally: in every reachable state
with at least one errored task, `wg.Wait()` has not returned (and by the
invariant never can, since the counter stays positive). -/
theorem C4_pooled_error_never_returns {α : Type} (task : α → Except String (Option α))
    (items : List α) (poolSize : Nat) (s : PoolState α)
    (h : PoolReachable task items poolSize s) (herr : 1 ≤ s.errCount) :
    s.waitDone = false := by
  obtain ⟨h1, h2⟩ := pool_invariant task items poolSize s h
  by_contra hw
  simp only [Bool.not_eq_false] at hw
  have := h2 hw
  omega

/-- Witness for `C4_pooled_error_never_returns`: with one item, one worker
and an always-failing task, the state after the worker consumes the item is
reachable, has an errored task, and `wg.Wait()` has not returned there. -/
theorem C4_pooled_error_never_returns_witness :
    ∃ s : PoolState Nat,
      PoolReachable (fun _ => (.error "boom" : Except String (Option Nat))) [0] 1 s ∧
      1 ≤ s.errCount ∧ s.waitDone = false := by
  refine ⟨{ initPoolState [0] 1 with queue := [], errSlot := some "boom",
                                     cancelled := true, errCount := 1 }, ?_, ?_, ?_⟩
  · exact Relation.ReflTransGen.single
      (PoolStep.takeErrFirst (initPoolState [0] 1) 0 [] "boom"
        (by simp [initPoolState]) rfl rfl rfl)
  · simp
  · exact C4_pooled_error_never_returns (fun _ => .error "boom") [0] 1 _
      (Relation.ReflTransGen.single
        (PoolStep.takeErrFirst (initPoolState [0] 1) 0 [] "boom"
          (by simp [initPoolState]) rfl rfl rfl))
      (by simp)

end Terraformer
